import Mathlib

/-!
# Best-practices checklist (`bestpractices.js`): model and verified properties

A shallow embedding of the checklist page controller.  The page is a record of
the DOM surfaces the script reads and writes, `localStorage` is an optional
string, and every JavaScript function of the script is a Lean function of the
same name over that state.  The built-ins the script relies on (IEEE-754
arithmetic, `Math.round`, `String.prototype.includes`, `JSON.stringify`,
`JSON.parse`, the jQuery `#id` selector) are modelled next to their first use.
-/

namespace BestPractices

/-! ## The catalog -/

/-- The four categories a practice can be filed under. -/
inductive Category
  | html
  | css
  | js
  | generic
deriving DecidableEq, Repr

/-- One entry of the `bestPractices` array. -/
structure Practice where
  id : String
  title : String
  description : String
  category : Category
deriving DecidableEq, Repr

/-- The `bestPractices` catalog, in source order. -/
def bestPractices : List Practice := [
  ⟨"semantic-html", "Use Semantic HTML",
    "Semantic HTML elements clearly describe their meaning to both browsers and developers. Proper use of HTML semantic tags (header, nav, section, etc.) improves accessibility, SEO, and code readability.",
    .html⟩,
  ⟨"accessibility", "Ensure Accessibility (WCAG Compliance)",
    "Design for all users by following Web Content Accessibility Guidelines (WCAG). Use proper contrast ratios, alt text for images, keyboard navigation, and ARIA attributes where needed.",
    .html⟩,
  ⟨"semantic-class-names", "Choose Semantic Class Names",
    "Use descriptive, purpose-based class names instead of presentation-based names. This creates more maintainable code and separates structure from presentation.",
    .html⟩,
  ⟨"html-doctype", "Include Proper DOCTYPE",
    "Always declare the correct document type with <!DOCTYPE html> at the beginning of HTML documents to ensure browsers render your page in standards mode.",
    .html⟩,
  ⟨"responsive-design", "Implement Responsive Design",
    "Ensure your website functions well on all devices by using media queries, flexible grids, and relative units (%, em, rem). This improves user experience and is a ranking factor for search engines.",
    .css⟩,
  ⟨"css-organization", "Organize CSS with Methodology",
    "Use a CSS methodology like BEM (Block, Element, Modifier), SMACSS, or OOCSS to write maintainable, scalable, and more readable styles that are easier to debug and update.",
    .css⟩,
  ⟨"css-variables", "Use CSS Custom Properties (Variables)",
    "Implement CSS variables for consistent theming, easier maintenance, and more dynamic styles. They make global color or size changes simple and reduce repetition in your CSS.",
    .css⟩,
  ⟨"css-prefixes", "Use CSS Vendor Prefixes",
    "Ensure cross-browser compatibility by using vendor prefixes for CSS properties that require them, or utilize tools like Autoprefixer to add them automatically.",
    .css⟩,
  ⟨"defer-js", "Defer JavaScript Loading",
    "Use defer or async attributes to prevent JavaScript from blocking page rendering, improving initial load times and user experience, especially on slower connections.",
    .js⟩,
  ⟨"error-handling", "Implement Proper Error Handling",
    "Use try/catch blocks and error event listeners in JavaScript to gracefully handle errors without breaking the user experience or leaving users wondering what went wrong.",
    .js⟩,
  ⟨"lazy-loading", "Implement Lazy Loading",
    "Defer loading off-screen images and videos until they're needed, reducing initial page load time and saving data for users on limited bandwidth connections.",
    .js⟩,
  ⟨"strict-mode", "Enable Strict Mode",
    "Add \"use strict\"; at the top of JavaScript files to enforce safer coding practices, catch common mistakes, and prevent the use of potentially problematic features.",
    .js⟩,
  ⟨"minify-resources", "Minify CSS and JavaScript",
    "Removing unnecessary characters (whitespace, comments, etc.) from your code without changing functionality reduces file size, leading to faster loading times and improved performance.",
    .generic⟩,
  ⟨"image-optimization", "Optimize Images",
    "Compress images, use appropriate formats (WebP, AVIF), and implement responsive images with srcset to reduce page load times and save bandwidth for users.",
    .generic⟩,
  ⟨"https", "Implement HTTPS",
    "Secure your website with HTTPS to protect user data, build trust, improve SEO (Google uses HTTPS as a ranking signal), and enable modern features like service workers.",
    .generic⟩]

/-- The constant `REQUIRED_FOR_SUCCESS`. -/
def REQUIRED_FOR_SUCCESS : Nat := 12

/-- The constant `TOTAL_PRACTICES = bestPractices.length`. -/
def TOTAL_PRACTICES : Nat := bestPractices.length

/-! ## IEEE-754 binary64 arithmetic on the values the script computes

`checkedCount / TOTAL_PRACTICES * 100` is evaluated in double precision.  A
finite non-negative double is the dyadic number `m * 2 ^ e`; every operation
computes the exact rational result and rounds it to the nearest double, ties
to even.  Overflow to `Infinity` cannot occur for the operands of the script
(a count of checkboxes, 15 and 100) and is not represented. -/

/-- A finite, non-negative binary64 value `m * 2 ^ e`. -/
structure Float64 where
  m : Nat
  e : Int
deriving DecidableEq, Repr

/-- The quotient `p / q` rounded to the nearest integer, ties to even. -/
def roundHalfEven (p q : Nat) : Nat :=
  let d := p / q
  let r := p % q
  if 2 * r < q then d else if q < 2 * r then d + 1 else if d % 2 = 0 then d else d + 1

/-- Number of binary digits of `n`, by halving (`fuel` bounds the halvings). -/
def bitLength : Nat → Nat → Nat
  | 0, _ => 0
  | fuel + 1, n => if n = 0 then 0 else bitLength fuel (n / 2) + 1

/-- The integer part of the base-2 logarithm of `n` (0 for `n = 0`). -/
def floorLog2 (n : Nat) : Nat := bitLength n n - 1

/-- The fraction `p / (q * 2 ^ e)` as numerator and denominator. -/
def scaled (p q : Nat) (e : Int) : Nat × Nat :=
  if 0 ≤ e then (p, q * 2 ^ e.toNat) else (p * 2 ^ (-e).toNat, q)

/-- The double nearest to the rational `p / q` (`q > 0`), ties to even: the
exponent is chosen so that the significand has 53 bits, not below the
subnormal exponent -1074. -/
def roundToFloat64 (p q : Nat) : Float64 :=
  if p = 0 then ⟨0, 0⟩ else
  let e0 : Int := (floorLog2 p : Int) - (floorLog2 q : Int) - 52
  let e1 : Int := if (scaled p q e0).1 < 2 ^ 52 * (scaled p q e0).2 then e0 - 1 else e0
  let e : Int := if e1 < -1074 then -1074 else e1
  let m := roundHalfEven (scaled p q e).1 (scaled p q e).2
  if m = 2 ^ 53 then ⟨2 ^ 52, e + 1⟩ else ⟨m, e⟩

/-- Double-precision division of two integers (both exactly representable). -/
def Float64.divNat (a b : Nat) : Float64 := roundToFloat64 a b

/-- Double-precision product of a double and an integer. -/
def Float64.mulNat (x : Float64) (k : Nat) : Float64 :=
  if 0 ≤ x.e then roundToFloat64 (x.m * k * 2 ^ x.e.toNat) 1
  else roundToFloat64 (x.m * k) (2 ^ (-x.e).toNat)

/-- The function `Math.round` on a non-negative double: `floor (x + 1/2)`,
computed exactly. -/
def mathRound (x : Float64) : Nat :=
  if 0 ≤ x.e then x.m * 2 ^ x.e.toNat
  else (2 * x.m + 2 ^ (-x.e).toNat) / 2 ^ ((-x.e).toNat + 1)

/-- The expression `Math.round((checkedCount / TOTAL_PRACTICES) * 100)` of
`updateProgress` and `forceUpdateProgress`. -/
def percentageOf (checkedCount : Nat) : Nat :=
  mathRound ((Float64.divNat checkedCount TOTAL_PRACTICES).mulNat 100)

/-! ## The difficulty tag of `createPracticeCard` -/

/-- The method `String.prototype.includes` on character lists: does `needle`
occur as a contiguous run of `hay`? -/
def includesChars (hay needle : List Char) : Bool :=
  match hay with
  | [] => needle.isEmpty
  | c :: cs => needle.isPrefixOf (c :: cs) || includesChars cs needle

/-- The call `s.includes(t)`.  JavaScript compares UTF-16 code units; for the
ASCII needles of the script this is the same as comparing characters. -/
def includes (s t : String) : Bool := includesChars s.toList t.toList

/-- The pair `(tagClass, tagText)` computed at the top of `createPracticeCard`. -/
def difficultyTag (practice : Practice) : String × String :=
  if includes practice.id "responsive" || includes practice.id "organization"
      || includes practice.id "variables" then
    ("tag-intermediate", "Intermediate")
  else if includes practice.id "performance" || includes practice.id "global"
      || includes practice.id "loading" then
    ("tag-advanced", "Advanced")
  else
    ("tag-essential", "Essential")

/-! ## JSON values, `JSON.stringify` and `JSON.parse`

JavaScript strings are modelled as Lean strings (sequences of Unicode scalar
values); a text whose escapes denote an unpaired surrogate has no such
representation and is reported as `ParseFail.unmodelled`. -/

mutual
/-- A JSON value.  A number is kept as sign, decimal significand and decimal
exponent (`mant * 10 ^ exp10`); an object holds its own properties in
insertion order. -/
inductive JVal
  | null
  | bool (b : Bool)
  | num (neg : Bool) (mant : Nat) (exp10 : Int)
  | str (s : String)
  | arr (items : JItems)
  | obj (members : JMembers)
/-- The elements of a JSON array. -/
inductive JItems
  | nil
  | cons (v : JVal) (rest : JItems)
/-- The properties of a JSON object. -/
inductive JMembers
  | nil
  | cons (k : String) (v : JVal) (rest : JMembers)
end

mutual
/-- Decidable equality of JSON values. -/
def JVal.decEq : (a b : JVal) → Decidable (a = b)
  | .null, .null => isTrue rfl
  | .bool a, .bool b =>
      if h : a = b then isTrue (by rw [h]) else isFalse (by intro e; cases e; exact h rfl)
  | .num a b c, .num a2 b2 c2 =>
      if h : a = a2 ∧ b = b2 ∧ c = c2 then
        isTrue (by obtain ⟨h1, h2, h3⟩ := h; rw [h1, h2, h3])
      else isFalse (by intro e; cases e; exact h ⟨rfl, rfl, rfl⟩)
  | .str a, .str b =>
      if h : a = b then isTrue (by rw [h]) else isFalse (by intro e; cases e; exact h rfl)
  | .arr a, .arr b =>
      match JItems.decEq a b with
      | isTrue h => isTrue (by rw [h])
      | isFalse h => isFalse (by intro e; cases e; exact h rfl)
  | .obj a, .obj b =>
      match JMembers.decEq a b with
      | isTrue h => isTrue (by rw [h])
      | isFalse h => isFalse (by intro e; cases e; exact h rfl)
  | .null, .bool _ | .null, .num .. | .null, .str _ | .null, .arr _ | .null, .obj _ =>
      isFalse (by intro e; cases e)
  | .bool _, .null | .bool _, .num .. | .bool _, .str _ | .bool _, .arr _ | .bool _, .obj _ =>
      isFalse (by intro e; cases e)
  | .num .., .null | .num .., .bool _ | .num .., .str _ | .num .., .arr _ | .num .., .obj _ =>
      isFalse (by intro e; cases e)
  | .str _, .null | .str _, .bool _ | .str _, .num .. | .str _, .arr _ | .str _, .obj _ =>
      isFalse (by intro e; cases e)
  | .arr _, .null | .arr _, .bool _ | .arr _, .num .. | .arr _, .str _ | .arr _, .obj _ =>
      isFalse (by intro e; cases e)
  | .obj _, .null | .obj _, .bool _ | .obj _, .num .. | .obj _, .str _ | .obj _, .arr _ =>
      isFalse (by intro e; cases e)
/-- Decidable equality of JSON arrays. -/
def JItems.decEq : (a b : JItems) → Decidable (a = b)
  | .nil, .nil => isTrue rfl
  | .cons v r, .cons v2 r2 =>
      match JVal.decEq v v2, JItems.decEq r r2 with
      | isTrue h1, isTrue h2 => isTrue (by rw [h1, h2])
      | isFalse h, _ => isFalse (by intro e; cases e; exact h rfl)
      | _, isFalse h => isFalse (by intro e; cases e; exact h rfl)
  | .nil, .cons .. => isFalse (by intro e; cases e)
  | .cons .., .nil => isFalse (by intro e; cases e)
/-- Decidable equality of JSON property lists. -/
def JMembers.decEq : (a b : JMembers) → Decidable (a = b)
  | .nil, .nil => isTrue rfl
  | .cons k v r, .cons k2 v2 r2 =>
      if hk : k = k2 then
        match JVal.decEq v v2, JMembers.decEq r r2 with
        | isTrue h1, isTrue h2 => isTrue (by rw [hk, h1, h2])
        | isFalse h, _ => isFalse (by intro e; cases e; exact h rfl)
        | _, isFalse h => isFalse (by intro e; cases e; exact h rfl)
      else isFalse (by intro e; cases e; exact hk rfl)
  | .nil, .cons .. => isFalse (by intro e; cases e)
  | .cons .., .nil => isFalse (by intro e; cases e)
end

instance : DecidableEq JVal := JVal.decEq

/-- The elements of an array as a list. -/
def JItems.toList : JItems → List JVal
  | .nil => []
  | .cons v rest => v :: rest.toList

/-- An array from a list of elements. -/
def JItems.ofList : List JVal → JItems
  | [] => .nil
  | v :: rest => .cons v (JItems.ofList rest)

/-- The properties of an object as a list. -/
def JMembers.toList : JMembers → List (String × JVal)
  | .nil => []
  | .cons k v rest => (k, v) :: rest.toList

/-- An object from a list of properties. -/
def JMembers.ofList : List (String × JVal) → JMembers
  | [] => .nil
  | (k, v) :: rest => .cons k v (JMembers.ofList rest)

/-- Does the decimal number `mant * 10 ^ exp10` convert to the double `0`?
It does when it is at most `2 ^ -1075`, half the least subnormal. -/
def numIsZero (mant : Nat) (exp10 : Int) : Bool :=
  if 0 ≤ exp10 then decide (mant = 0)
  else decide (mant * 2 ^ 1075 ≤ 10 ^ (-exp10).toNat)

/-- The abstract operation `ToBoolean` on a JSON value. -/
def toBoolean : JVal → Bool
  | .null => false
  | .bool b => b
  | .num _ mant exp10 => !numIsZero mant exp10
  | .str s => !s.data.isEmpty
  | .arr _ => true
  | .obj _ => true

/-! ### Property order of ordinary objects -/

/-- The value of a run of decimal digits, if the characters are all digits. -/
def digitsValue : Nat → List Char → Option Nat
  | acc, [] => some acc
  | acc, c :: cs =>
      if 48 ≤ c.toNat ∧ c.toNat ≤ 57 then digitsValue (acc * 10 + (c.toNat - 48)) cs else none

/-- The array index denoted by a property key: a canonical decimal numeral
(no leading zero) below `2 ^ 32 - 1`. -/
def arrayIndex (k : String) : Option Nat :=
  match k.data with
  | [] => none
  | c :: cs =>
      if c.toNat = 48 ∧ cs ≠ [] then none
      else match digitsValue 0 (c :: cs) with
        | some n => if n < 4294967295 then some n else none
        | none => none

/-- The assignment `o[k] = v` as a data property: an existing key keeps its
position and takes the new value, a new key is added at the end. -/
def setProp {α : Type} : List (String × α) → String → α → List (String × α)
  | [], k, v => [(k, v)]
  | (k1, v1) :: rest, k, v =>
      if k1 = k then (k1, v) :: rest else (k1, v1) :: setProp rest k v

/-- Insertion of an indexed property into a list sorted by index. -/
def insertByIndex {α : Type} (n : Nat) (kv : String × α) :
    List (Nat × String × α) → List (Nat × String × α)
  | [] => [(n, kv)]
  | (n1, kv1) :: rest =>
      if n ≤ n1 then (n, kv) :: (n1, kv1) :: rest else (n1, kv1) :: insertByIndex n kv rest

/-- The properties whose key is an array index, in ascending index order. -/
def indexedProps {α : Type} : List (String × α) → List (Nat × String × α)
  | [] => []
  | (k, v) :: rest =>
      match arrayIndex k with
      | some n => insertByIndex n (k, v) (indexedProps rest)
      | none => indexedProps rest

/-- The own properties of an ordinary object in enumeration order: array
indices ascending, then the other keys in insertion order. -/
def ownProps {α : Type} (ms : List (String × α)) : List (String × α) :=
  (indexedProps ms).map (fun p => p.2) ++ ms.filter (fun p => (arrayIndex p.1).isNone)

/-! ### `JSON.stringify` of the state object -/

/-- A lower-case hexadecimal digit. -/
def hexDigit (n : Nat) : Char :=
  if n < 10 then Char.ofNat (48 + n) else Char.ofNat (87 + n)

/-- The escape of one character by `QuoteJSONString`. -/
def quoteChar (c : Char) : List Char :=
  if c.toNat = 34 then [Char.ofNat 92, Char.ofNat 34]
  else if c.toNat = 92 then [Char.ofNat 92, Char.ofNat 92]
  else if c.toNat = 8 then [Char.ofNat 92, 'b']
  else if c.toNat = 9 then [Char.ofNat 92, 't']
  else if c.toNat = 10 then [Char.ofNat 92, 'n']
  else if c.toNat = 12 then [Char.ofNat 92, 'f']
  else if c.toNat = 13 then [Char.ofNat 92, 'r']
  else if c.toNat < 32 then
    [Char.ofNat 92, 'u', '0', '0', hexDigit (c.toNat / 16), hexDigit (c.toNat % 16)]
  else [c]

/-- The body of `QuoteJSONString`: every character escaped as needed. -/
def quoteChars : List Char → List Char
  | [] => []
  | c :: cs => quoteChar c ++ quoteChars cs

/-- One `"key":true` or `"key":false` member. -/
def stringifyMember (m : String × Bool) : List Char :=
  Char.ofNat 34 :: (quoteChars m.1.data ++
    Char.ofNat 34 :: ':' :: (if m.2 then ['t', 'r', 'u', 'e'] else ['f', 'a', 'l', 's', 'e']))

/-- The members of an object, separated by commas. -/
def stringifyMembers : List (String × Bool) → List Char
  | [] => []
  | [m] => stringifyMember m
  | m :: m2 :: ms => stringifyMember m ++ ',' :: stringifyMembers (m2 :: ms)

/-- The call `JSON.stringify(state)` for an object whose values are booleans. -/
def JSON.stringify (state : List (String × Bool)) : String :=
  String.mk (Char.ofNat 123 :: (stringifyMembers (ownProps state) ++ [Char.ofNat 125]))

/-! ### `JSON.parse`

The parser reads the text one character at a time.  Its state is the stack of
the containers that are still open and the lexical position inside the
grammar of ECMA-404 as `JSON.parse` applies it (white space is tab, line feed,
carriage return and space only). -/

/-- Why `JSON.parse` gives no value: the text is not JSON (a `SyntaxError` is
thrown), or it denotes a string outside the model. -/
inductive ParseFail
  | syntaxError
  | unmodelled
deriving DecidableEq, Repr

/-- A container that is still open: an array with the elements read so far
(latest first), or an object with the members read so far (latest first) and
the key whose value is being read. -/
inductive Frame
  | arr (items : List JVal)
  | obj (members : List (String × JVal)) (key : String)

/-- Where the parser is inside a number. -/
inductive NumPhase
  | minus
  | zero
  | int
  | dot
  | frac
  | e
  | esign
  | exp
deriving DecidableEq, Repr

/-- The digits of a number read so far. -/
structure NumAcc where
  neg : Bool
  mant : Nat
  fracLen : Nat
  expNeg : Bool
  exp : Nat
deriving DecidableEq, Repr

/-- The lexical position.  In the string positions `isKey` tells a member key
from a string value, `acc` holds the characters read (latest first) and `hi`
a high surrogate that still waits for its low surrogate. -/
inductive Lex
  | value
  | arrStart
  | objStart
  | key
  | colon
  | after
  | lit (rest : List Char) (v : JVal)
  | str (isKey : Bool) (acc : List Char) (hi : Option Nat)
  | esc (isKey : Bool) (acc : List Char) (hi : Option Nat)
  | uni (isKey : Bool) (acc : List Char) (hi : Option Nat) (n : Nat) (k : Nat)
  | num (ph : NumPhase) (a : NumAcc)

/-- The state of the parser: open containers (innermost first), lexical
position, and the top-level value once it is complete. -/
structure PState where
  stack : List Frame
  lex : Lex
  result : Option JVal

/-- The object built from members in source order: a repeated key keeps its
first position and takes the last value. -/
def mkObject (ms : List (String × JVal)) : JVal :=
  .obj (JMembers.ofList (ms.foldl (fun o m => setProp o m.1 m.2) []))

/-- A value is complete: it becomes the result at top level, and otherwise
joins the innermost open container. -/
def complete (stack : List Frame) (v : JVal) : PState :=
  match stack with
  | [] => ⟨[], .after, some v⟩
  | .arr items :: rest => ⟨.arr (v :: items) :: rest, .after, none⟩
  | .obj ms k :: rest => ⟨.obj ((k, v) :: ms) k :: rest, .after, none⟩

/-- The number denoted by the digits read. -/
def numOf (a : NumAcc) : JVal :=
  .num a.neg a.mant ((if a.expNeg then -(a.exp : Int) else (a.exp : Int)) - (a.fracLen : Int))

/-- Is `n` the code of a JSON white-space character? -/
def isWs (n : Nat) : Bool := n = 9 || n = 10 || n = 13 || n = 32

/-- Is `n` the code of a decimal digit? -/
def isDigit (n : Nat) : Bool := 48 ≤ n && n ≤ 57

/-- The value of a hexadecimal digit, upper or lower case. -/
def hexValue (n : Nat) : Option Nat :=
  if 48 ≤ n ∧ n ≤ 57 then some (n - 48)
  else if 65 ≤ n ∧ n ≤ 70 then some (n - 55)
  else if 97 ≤ n ∧ n ≤ 102 then some (n - 87)
  else none

/-- A string is closed: a key is stored in the open object, a value is complete. -/
def endString (stack : List Frame) (isKey : Bool) (acc : List Char) :
    Except ParseFail PState :=
  if isKey then
    match stack with
    | .obj ms _ :: rest => .ok ⟨.obj ms (String.mk acc.reverse) :: rest, .colon, none⟩
    | _ => .error .syntaxError
  else .ok (complete stack (.str (String.mk acc.reverse)))

/-- The step at the start of a value (`allowClose`: directly after `[`). -/
def stepValue (stack : List Frame) (allowClose : Bool) (c : Char) : Except ParseFail PState :=
  let n := c.toNat
  if isWs n then .ok ⟨stack, if allowClose then .arrStart else .value, none⟩
  else if n = 34 then .ok ⟨stack, .str false [] none, none⟩
  else if n = 123 then .ok ⟨.obj [] "" :: stack, .objStart, none⟩
  else if n = 91 then .ok ⟨.arr [] :: stack, .arrStart, none⟩
  else if n = 93 ∧ allowClose = true then
    match stack with
    | .arr _ :: rest => .ok (complete rest (.arr .nil))
    | _ => .error .syntaxError
  else if n = 45 then .ok ⟨stack, .num .minus ⟨true, 0, 0, false, 0⟩, none⟩
  else if n = 48 then .ok ⟨stack, .num .zero ⟨false, 0, 0, false, 0⟩, none⟩
  else if isDigit n then .ok ⟨stack, .num .int ⟨false, n - 48, 0, false, 0⟩, none⟩
  else if n = 116 then .ok ⟨stack, .lit ['r', 'u', 'e'] (.bool true), none⟩
  else if n = 102 then .ok ⟨stack, .lit ['a', 'l', 's', 'e'] (.bool false), none⟩
  else if n = 110 then .ok ⟨stack, .lit ['u', 'l', 'l'] .null, none⟩
  else .error .syntaxError

/-- The step where a member key is expected (`allowClose`: directly after the
opening brace). -/
def stepKey (stack : List Frame) (allowClose : Bool) (c : Char) : Except ParseFail PState :=
  let n := c.toNat
  if isWs n then .ok ⟨stack, if allowClose then .objStart else .key, none⟩
  else if n = 34 then .ok ⟨stack, .str true [] none, none⟩
  else if n = 125 ∧ allowClose = true then
    match stack with
    | .obj _ _ :: rest => .ok (complete rest (mkObject []))
    | _ => .error .syntaxError
  else .error .syntaxError

/-- The step after a complete value: a comma, the end of the innermost
container, or white space. -/
def stepAfter (stack : List Frame) (result : Option JVal) (c : Char) :
    Except ParseFail PState :=
  let n := c.toNat
  if isWs n then .ok ⟨stack, .after, result⟩
  else match stack with
    | [] => .error .syntaxError
    | .arr items :: rest =>
        if n = 44 then .ok ⟨.arr items :: rest, .value, none⟩
        else if n = 93 then .ok (complete rest (.arr (JItems.ofList items.reverse)))
        else .error .syntaxError
    | .obj ms k :: rest =>
        if n = 44 then .ok ⟨.obj ms k :: rest, .key, none⟩
        else if n = 125 then .ok (complete rest (mkObject ms.reverse))
        else .error .syntaxError

/-- A `\uXXXX` escape is complete with code unit `n`: surrogate halves are
joined into one character; an unpaired half is outside the model. -/
def endUnicode (stack : List Frame) (isKey : Bool) (acc : List Char) (hi : Option Nat)
    (n : Nat) : Except ParseFail PState :=
  match hi with
  | some h =>
      if 56320 ≤ n ∧ n ≤ 57343 then
        .ok ⟨stack, .str isKey (Char.ofNat (65536 + (h - 55296) * 1024 + (n - 56320)) :: acc) none,
          none⟩
      else .error .unmodelled
  | none =>
      if 55296 ≤ n ∧ n ≤ 56319 then .ok ⟨stack, .str isKey acc (some n), none⟩
      else if 56320 ≤ n ∧ n ≤ 57343 then .error .unmodelled
      else .ok ⟨stack, .str isKey (Char.ofNat n :: acc) none, none⟩

/-- The step inside a number; a character that cannot continue a complete
number ends it and is read again as the character after a value. -/
def stepNum (stack : List Frame) (ph : NumPhase) (a : NumAcc) (c : Char) :
    Except ParseFail PState :=
  let n := c.toNat
  let finish : Except ParseFail PState :=
    let st := complete stack (numOf a)
    stepAfter st.stack st.result c
  match ph with
  | .minus =>
      if n = 48 then .ok ⟨stack, .num .zero a, none⟩
      else if isDigit n then .ok ⟨stack, .num .int { a with mant := n - 48 }, none⟩
      else .error .syntaxError
  | .zero =>
      if n = 46 then .ok ⟨stack, .num .dot a, none⟩
      else if n = 101 ∨ n = 69 then .ok ⟨stack, .num .e a, none⟩
      else finish
  | .int =>
      if isDigit n then .ok ⟨stack, .num .int { a with mant := a.mant * 10 + (n - 48) }, none⟩
      else if n = 46 then .ok ⟨stack, .num .dot a, none⟩
      else if n = 101 ∨ n = 69 then .ok ⟨stack, .num .e a, none⟩
      else finish
  | .dot =>
      if isDigit n then
        .ok ⟨stack, .num .frac { a with mant := a.mant * 10 + (n - 48), fracLen := a.fracLen + 1 },
          none⟩
      else .error .syntaxError
  | .frac =>
      if isDigit n then
        .ok ⟨stack, .num .frac { a with mant := a.mant * 10 + (n - 48), fracLen := a.fracLen + 1 },
          none⟩
      else if n = 101 ∨ n = 69 then .ok ⟨stack, .num .e a, none⟩
      else finish
  | .e =>
      if n = 43 then .ok ⟨stack, .num .esign a, none⟩
      else if n = 45 then .ok ⟨stack, .num .esign { a with expNeg := true }, none⟩
      else if isDigit n then .ok ⟨stack, .num .exp { a with exp := n - 48 }, none⟩
      else .error .syntaxError
  | .esign =>
      if isDigit n then .ok ⟨stack, .num .exp { a with exp := n - 48 }, none⟩
      else .error .syntaxError
  | .exp =>
      if isDigit n then .ok ⟨stack, .num .exp { a with exp := a.exp * 10 + (n - 48) }, none⟩
      else finish

/-- One character of input. -/
def step (st : PState) (c : Char) : Except ParseFail PState :=
  let n := c.toNat
  match st.lex with
  | .value => stepValue st.stack false c
  | .arrStart => stepValue st.stack true c
  | .objStart => stepKey st.stack true c
  | .key => stepKey st.stack false c
  | .colon =>
      if isWs n then .ok st
      else if n = 58 then .ok ⟨st.stack, .value, none⟩
      else .error .syntaxError
  | .after => stepAfter st.stack st.result c
  | .lit [] _ => .error .syntaxError
  | .lit (r :: rest) v =>
      if c = r then
        (if rest.isEmpty then .ok (complete st.stack v) else .ok ⟨st.stack, .lit rest v, none⟩)
      else .error .syntaxError
  | .str isKey acc (some h) =>
      if n = 92 then .ok ⟨st.stack, .esc isKey acc (some h), none⟩
      else .error .unmodelled
  | .str isKey acc none =>
      if n = 34 then endString st.stack isKey acc
      else if n = 92 then .ok ⟨st.stack, .esc isKey acc none, none⟩
      else if n < 32 then .error .syntaxError
      else .ok ⟨st.stack, .str isKey (c :: acc) none, none⟩
  | .esc isKey acc (some h) =>
      if n = 117 then .ok ⟨st.stack, .uni isKey acc (some h) 0 0, none⟩
      else .error .unmodelled
  | .esc isKey acc none =>
      if n = 34 ∨ n = 92 ∨ n = 47 then .ok ⟨st.stack, .str isKey (c :: acc) none, none⟩
      else if n = 98 then .ok ⟨st.stack, .str isKey (Char.ofNat 8 :: acc) none, none⟩
      else if n = 102 then .ok ⟨st.stack, .str isKey (Char.ofNat 12 :: acc) none, none⟩
      else if n = 110 then .ok ⟨st.stack, .str isKey (Char.ofNat 10 :: acc) none, none⟩
      else if n = 114 then .ok ⟨st.stack, .str isKey (Char.ofNat 13 :: acc) none, none⟩
      else if n = 116 then .ok ⟨st.stack, .str isKey (Char.ofNat 9 :: acc) none, none⟩
      else if n = 117 then .ok ⟨st.stack, .uni isKey acc none 0 0, none⟩
      else .error .syntaxError
  | .uni isKey acc hi v k =>
      match hexValue n with
      | some d =>
          if k = 3 then endUnicode st.stack isKey acc hi (v * 16 + d)
          else .ok ⟨st.stack, .uni isKey acc hi (v * 16 + d) (k + 1), none⟩
      | none => .error .syntaxError
  | .num ph a => stepNum st.stack ph a c

/-- The parser run over the characters of the text. -/
def run : PState → List Char → Except ParseFail PState
  | st, [] => .ok st
  | st, c :: cs =>
      match step st c with
      | .ok st1 => run st1 cs
      | .error e => .error e

/-- The end of the text: the top-level value must be complete. -/
def finish (st : PState) : Except ParseFail JVal :=
  match st.stack, st.lex, st.result with
  | [], .after, some v => .ok v
  | [], .num ph a, _ =>
      if ph = .zero ∨ ph = .int ∨ ph = .frac ∨ ph = .exp then .ok (numOf a)
      else .error .syntaxError
  | _, _, _ => .error .syntaxError

/-- The call `JSON.parse(text)`: the value, or the reason there is none. -/
def JSON.parse (text : String) : Except ParseFail JVal :=
  match run ⟨[], .value, none⟩ text.data with
  | .ok st => finish st
  | .error e => .error e

/-! ## The page, `localStorage` and the pending work

The document holds the elements that `renderBestPractices` creates (a card and
its checkbox per practice, in document order) and the fixed surfaces of the
page: the four containers `#html-practices`, `#css-practices`, `#js-practices`
and `#generic-practices`, `#total-practices`, `#completed-practices`,
`#progress-circle`, `#progress-percentage`, `#success-message`,
`.circular-progress` and `#animal-container`.  The fixed surfaces are taken to exist, except the two the
script itself guards (`#progress-circle`, `#progress-percentage`), and their
ids are taken to differ from the ids of the rendered elements. -/

/-- The two kinds of rendered element that carry an id: the checkbox
(`input.practice-check`) and the card (`div.practice-card`). -/
inductive ElemKind
  | check
  | card
deriving DecidableEq, Repr

/-- A rendered element: its id, its kind, the category container it was
appended to, its `checked` property and whether it has the class `checked`. -/
structure Elem where
  id : String
  kind : ElemKind
  container : Category
  checked : Bool
  marked : Bool
deriving DecidableEq, Repr

/-- The content of `#animal-container`: nothing, the loading indicator, the
reward image built from `response.message` with its `#new-dog-btn` button, the
failure notice alone, or the failure notice followed by the `#retry-dog-btn`
button.  Both buttons are bound to `fetchRandomDogImage`. -/
inductive Animal
  | empty
  | loading
  | image (message : Option JVal)
  | notice
  | noticeRetry
deriving DecidableEq

/-- The DOM surfaces.  `gauge` is the percentage the stroke offset of the
circle was last computed from (`circumference - percentage / 100 *
circumference`), `label` the number in the text `N%` of the percentage label;
`successHidden` is the class `d-none` on `#success-message`, `successState`
the class `success-state` on `.circular-progress`. -/
structure Page where
  elems : List Elem
  totalPractices : Option Nat
  completedPractices : Option Nat
  hasCircle : Bool
  hasLabel : Bool
  gauge : Option Nat
  label : Option Nat
  successHidden : Bool
  successState : Bool
  animal : Animal
deriving DecidableEq

/-- The functions the script hands to `setTimeout`. -/
inductive Callback
  | updateProgress
  | forceUpdateProgress
deriving DecidableEq, Repr

/-- The page together with the value stored under `'bestPracticesState'`, the
number of `$.ajax` requests issued so far, the timers set (delay in ms and
callback) and the number of `alert` boxes shown. -/
structure World where
  page : Page
  storage : Option String
  requests : Nat
  timers : List (Nat × Callback)
  alerts : Nat
deriving DecidableEq

/-- The errors the script can raise: the `SyntaxError` of `JSON.parse`, a
`TypeError`, and the error jQuery throws for a selector it rejects. -/
inductive JsError
  | syntaxError
  | typeError
  | selectorError
deriving DecidableEq, Repr

/-- How a callback ends: normally, by an uncaught exception (with the state
reached when it was thrown), or outside the model. -/
inductive Outcome (σ : Type)
  | ok (s : σ)
  | threw (e : JsError) (s : σ)
  | unmodelled
deriving DecidableEq

/-! ### The jQuery selectors built from an id

`$('#' + id)` is modelled on two forms of selector.  A selector `#w` with `w`
made of letters, digits, `_` and `-` takes jQuery's id fast path
(`document.getElementById`): at most the first element with that id.  A
comma-separated list of id selectors (CSS identifiers, white space allowed
around the commas) is a selector list and selects every element that has one
of the ids.  Any other selector is outside the model. -/

/-- The elements a selector denotes. -/
inductive Selection
  | first (id : String)
  | all (ids : List String)
deriving DecidableEq, Repr

/-- Is `n` the code of a character of the class `[\w-]`? -/
def isIdChar (n : Nat) : Bool :=
  isDigit n || (65 ≤ n && n ≤ 90) || (97 ≤ n && n ≤ 122) || n = 95 || n = 45

/-- Can the character with code `n` start a CSS identifier (letter or `_`)? -/
def isIdStart (n : Nat) : Bool :=
  (65 ≤ n && n ≤ 90) || (97 ≤ n && n ≤ 122) || n = 95

/-- Is `n` the code of a CSS white-space character? -/
def isCssWs (n : Nat) : Bool := n = 9 || n = 10 || n = 12 || n = 13 || n = 32

/-- The text split at every comma. -/
def splitCommas : List Char → List (List Char)
  | [] => [[]]
  | c :: cs =>
      match splitCommas cs with
      | [] => [[c]]
      | part :: parts => if c.toNat = 44 then [] :: part :: parts else (c :: part) :: parts

/-- The text without white space at either end. -/
def trimCss (cs : List Char) : List Char :=
  ((cs.dropWhile (fun c => isCssWs c.toNat)).reverse.dropWhile (fun c => isCssWs c.toNat)).reverse

/-- The id of one id selector `#ident`. -/
def idSelector (cs : List Char) : Option String :=
  match cs with
  | h :: c :: rest =>
      if h.toNat = 35 ∧ isIdStart c.toNat = true ∧ rest.all (fun d => isIdChar d.toNat) = true then
        some (String.mk (c :: rest))
      else none
  | _ => none

/-- The ids of a list of id selectors, if every part is one. -/
def idSelectors : List (List Char) → Option (List String)
  | [] => some []
  | part :: parts =>
      match idSelector (trimCss part), idSelectors parts with
      | some id, some ids => some (id :: ids)
      | _, _ => none

/-- The call `$(selector)` for a selector string; `none` outside the model. -/
def jq (selector : String) : Option Selection :=
  match selector.data with
  | h :: c :: rest =>
      if h.toNat = 35 ∧ (c :: rest).all (fun d => isIdChar d.toNat) = true then
        some (.first (String.mk (c :: rest)))
      else (idSelectors (splitCommas (h :: c :: rest))).map Selection.all
  | _ => none

/-- A change applied to the first element that satisfies `p`. -/
def updFirst (p : Elem → Bool) (f : Elem → Elem) : List Elem → List Elem
  | [] => []
  | e :: es => if p e then f e :: es else e :: updFirst p f es

/-- A change applied to every element of a selection. -/
def Selection.update (sel : Selection) (f : Elem → Elem) (es : List Elem) : List Elem :=
  match sel with
  | .first id => updFirst (fun e => e.id = id) f es
  | .all ids => es.map (fun e => if e.id ∈ ids then f e else e)

/-! ### Rendering -/

/-- The elements with an id in the card `createPracticeCard` builds for a
practice, as appended to a container: the card `card-<id>` and, inside it, the
unchecked checkbox `<id>`. -/
def createPracticeCard (practice : Practice) (container : Category) : List Elem :=
  [⟨"card-" ++ practice.id, .card, container, false, false⟩,
   ⟨practice.id, .check, container, false, false⟩]

/-- The function `renderBestPractices`: the four containers are emptied and
each receives the cards of its category, in catalog order.  (The containers
follow each other in the document in the order html, css, js, generic; the
change handler is bound to every checkbox; `equalizeCardHeights` only sets
heights.) -/
def renderBestPractices (w : World) : World :=
  let htmlPractices := bestPractices.filter (fun p => p.category = .html)
  let cssPractices := bestPractices.filter (fun p => p.category = .css)
  let jsPractices := bestPractices.filter (fun p => p.category = .js)
  let genericPractices := bestPractices.filter (fun p => p.category = .generic)
  let rendered : List Elem :=
    List.flatten (htmlPractices.map (fun practice => createPracticeCard practice .html)) ++
    List.flatten (cssPractices.map (fun practice => createPracticeCard practice .css)) ++
    List.flatten (jsPractices.map (fun practice => createPracticeCard practice .js)) ++
    List.flatten (genericPractices.map (fun practice => createPracticeCard practice .generic))
  { w with page := { w.page with elems := rendered } }

/-! ### Progress display and reward -/

/-- The function `updateCircularProgress`. -/
def updateCircularProgress (percentage : Nat) (p : Page) : Page :=
  if p.hasCircle then
    let p1 := { p with gauge := some percentage }
    if p1.hasLabel then { p1 with label := some percentage } else p1
  else p

/-- The function `fetchRandomDogImage` up to the `$.ajax` call: the loading
indicator is shown and one request is issued. -/
def fetchRandomDogImage (w : World) : World :=
  { w with page := { w.page with animal := .loading }, requests := w.requests + 1 }

/-- The function `showSuccessMessage`. -/
def showSuccessMessage (w : World) : World :=
  if w.page.successHidden then
    fetchRandomDogImage { w with page := { w.page with successHidden := false } }
  else w

/-- The function `hideSuccessMessage`. -/
def hideSuccessMessage (w : World) : World :=
  { w with page := { w.page with successHidden := true, animal := .empty } }

/-- The length of `$('.practice-check:checked')`. -/
def checkedCount (p : Page) : Nat :=
  (p.elems.filter (fun e => e.kind = .check && e.checked)).length

/-- The function `updateProgress`. -/
def updateProgress (w : World) : World :=
  let count := checkedCount w.page
  let w1 := { w with page := { w.page with completedPractices := some count } }
  let percentage := percentageOf count
  let w2 := { w1 with page := updateCircularProgress percentage w1.page }
  if count ≥ REQUIRED_FOR_SUCCESS then
    let w3 := showSuccessMessage w2
    { w3 with page := { w3.page with successState := true } }
  else
    let w3 := hideSuccessMessage w2
    { w3 with page := { w3.page with successState := false } }

/-- The function `forceUpdateProgress`. -/
def forceUpdateProgress (w : World) : World :=
  let count := checkedCount w.page
  if count > 0 then
    let percentage := percentageOf count
    let w1 := { w with page := updateCircularProgress percentage w.page }
    if count ≥ REQUIRED_FOR_SUCCESS then
      { w1 with page := { w1.page with successHidden := false, successState := true } }
    else w1
  else w

/-! ### Persistence -/

/-- The assignment `state[id] = value` on the object literal of `saveState`
(the key `__proto__` reaches the inherited setter, which ignores a boolean). -/
def assign (state : List (String × Bool)) (id : String) (value : Bool) : List (String × Bool) :=
  if id = "__proto__" then state else setProp state id value

/-- The function `saveState`. -/
def saveState (w : World) : World :=
  let state := (w.page.elems.filter (fun e => e.kind = .check)).foldl
    (fun state e => assign state e.id e.checked) []
  { w with storage := some (JSON.stringify state) }

/-- The number of UTF-16 code units of a string. -/
def utf16Length (s : String) : Nat :=
  (s.data.map (fun c => if c.toNat < 65536 then 1 else 2)).sum

/-- The keys that `for (const id in state)` visits, each with
`ToBoolean(state[id])`: the own properties of an object in enumeration order,
the indices of an array, the indices of the code units of a string (each a
non-empty string), and nothing for `null`, a boolean or a number. -/
def forInEntries (state : JVal) : List (String × Bool) :=
  match state with
  | .obj members => (ownProps members.toList).map (fun m => (m.1, toBoolean m.2))
  | .arr items => items.toList.enum.map (fun iv => (toString iv.1, toBoolean iv.2))
  | .str s => (List.range (utf16Length s)).map (fun i => (toString i, true))
  | _ => []

/-- The loop body of `loadSavedState` over the entries of the stored state;
`none` when a selector is outside the model. -/
def applySaved : List (String × Bool) → Page → Option Page
  | [], p => some p
  | (id, value) :: rest, p =>
      match jq ("#" ++ id) with
      | none => none
      | some checkbox =>
          let p1 := { p with elems := checkbox.update (fun e => { e with checked := value }) p.elems }
          if value then
            match jq ("#card-" ++ id) with
            | none => none
            | some card =>
                applySaved rest
                  { p1 with elems := card.update (fun e => { e with marked := true }) p1.elems }
          else applySaved rest p1

/-- The function `loadSavedState`. -/
def loadSavedState (w : World) : Outcome World :=
  let schedule (w1 : World) : World :=
    { w1 with timers := w1.timers ++ [(100, Callback.updateProgress)] }
  match w.storage with
  | none => .ok (schedule w)
  | some savedState =>
      if savedState.data.isEmpty then .ok (schedule w)
      else match JSON.parse savedState with
        | .error .syntaxError => .threw .syntaxError w
        | .error .unmodelled => .unmodelled
        | .ok state =>
            match applySaved (forInEntries state) w.page with
            | none => .unmodelled
            | some p => .ok (schedule { w with page := p })

/-- The function `resetProgress` (run once the user has confirmed). -/
def resetProgress (w : World) : World :=
  let es1 := w.page.elems.map (fun e => if e.kind = .check then { e with checked := false } else e)
  let es2 := es1.map (fun e => if e.kind = .card then { e with marked := false } else e)
  let w1 := { w with page := { w.page with elems := es2 }, storage := none }
  let w2 := updateProgress w1
  { w2 with alerts := w2.alerts + 1 }

/-- The `change` handler bound to every checkbox, run with `this` the
checkbox that changed. -/
def changeHandler (this : Elem) (w : World) : Outcome World :=
  let practiceId := this.id
  match jq ("#card-" ++ practiceId) with
  | none => .unmodelled
  | some cardElement =>
      let es := cardElement.update (fun e => { e with marked := this.checked }) w.page.elems
      .ok (updateProgress (saveState { w with page := { w.page with elems := es } }))

/-- The user clicks the element at position `i` of the document: a checkbox
flips and its `change` handler runs; anything else is left alone. -/
def toggle (i : Nat) (w : World) : Outcome World :=
  match w.page.elems.get? i with
  | some e =>
      if e.kind = .check then
        let e1 := { e with checked := !e.checked }
        changeHandler e1 { w with page := { w.page with elems := w.page.elems.set i e1 } }
      else .ok w
  | none => .ok w

/-! ### The reward request -/

/-- How a request ends for `$.ajax` with `dataType: 'json'`: the four ways
that reach the `error` callback, or a 2xx response whose body parsed as JSON
(`none` for an empty `204`), which reaches `success`. -/
inductive FetchResult
  | timeout
  | networkError
  | httpError (status : Nat)
  | parserError
  | json (response : Option JVal)
deriving DecidableEq

/-- The property read `v.name` for a name that no built-in prototype defines
(`status`, `message`): the own property of an object, `undefined` otherwise. -/
def getProp (v : JVal) (name : String) : Option JVal :=
  match v with
  | .obj members => (members.toList.find? (fun m => m.1 = name)).map (fun m => m.2)
  | _ => none

/-- The `success` callback of `fetchRandomDogImage`; reading `status` of
`null` or `undefined` raises a `TypeError`. -/
def ajaxSuccess (response : Option JVal) (w : World) : Outcome World :=
  match response with
  | none => .threw .typeError w
  | some .null => .threw .typeError w
  | some r =>
      if getProp r "status" = some (.str "success") then
        let imageUrl := getProp r "message"
        .ok { w with page := { w.page with animal := .image imageUrl } }
      else
        .ok { w with page := { w.page with animal := .notice } }

/-- The `error` callback of `fetchRandomDogImage`. -/
def ajaxError (w : World) : World :=
  { w with page := { w.page with animal := .noticeRetry } }

/-- The completion of a request: jQuery runs the matching callback. -/
def ajaxComplete (r : FetchResult) (w : World) : Outcome World :=
  match r with
  | .json response => ajaxSuccess response w
  | _ => .ok (ajaxError w)

/-- A click on `#retry-dog-btn`, when the button is on the page. -/
def clickRetry (w : World) : World :=
  if w.page.animal = .noticeRetry then fetchRandomDogImage w else w

/-- A click on `#new-dog-btn`, when the button is on the page. -/
def clickNewDog (w : World) : World :=
  match w.page.animal with
  | .image _ => fetchRandomDogImage w
  | _ => w

/-! ### Start-up -/

/-- The document-ready handler.  An exception inside it ends the handler. -/
def documentReady (w : World) : Outcome World :=
  let w1 := { w with page := { w.page with totalPractices := some TOTAL_PRACTICES } }
  let w2 := renderBestPractices w1
  match loadSavedState w2 with
  | .ok w3 =>
      let w4 := updateProgress w3
      let w5 := { w4 with page := updateCircularProgress 0 w4.page }
      .ok { w5 with timers := w5.timers ++ [(500, Callback.forceUpdateProgress)] }
  | .threw e w3 => .threw e w3
  | .unmodelled => .unmodelled

/-! ### `loadSavedState` over any selector engine

What `$(selector)` selects is decided by jQuery, outside the script, and the
script pastes the stored key into the selector unescaped.  Here the engine is
a parameter: it rejects a selector with an error, or it selects elements of
the document.  `jqEngine` is the engine of the two selector forms modelled
above, and `loadSavedStateWith jqEngine` is `loadSavedState`. -/

/-- The answer of a selector engine: the selector is rejected with an error
(jQuery throws), it is outside what the engine models, or it is accepted and
selects elements, `m es i` telling whether the element at position `i` of the
rendered elements is one when `es` is what a selector can see of them. -/
inductive Matched
  | rejected
  | outside
  | elements (m : List Elem → Nat → Bool)

/-- What a selector can see of an element: its id, its kind, where it is, the
checked state of a checkbox and the class `checked`; not the `checked`
property of a card, which is a plain JavaScript property on a `div`. -/
def visible (e : Elem) : Elem :=
  match e.kind with
  | .check => e
  | .card => { e with checked := false }

/-- A change applied to the elements at the positions `sel` holds of, the head
of the list being at position `i`. -/
def updateAt (sel : Nat → Bool) (f : Elem → Elem) : Nat → List Elem → List Elem
  | _, [] => []
  | i, e :: es => (if sel i then f e else e) :: updateAt sel f (i + 1) es

/-- A change applied to every rendered element that `m` selects, given what a
selector can see of the rendered elements. -/
def updateSelected (m : List Elem → Nat → Bool) (f : Elem → Elem) (es : List Elem) : List Elem :=
  updateAt (m (es.map visible)) f 0 es

/-- The loop body of `loadSavedState` over the entries of the stored state,
with the selector engine `E` for `$`: a rejected selector ends the loop with
jQuery's error. -/
def applySavedWith (E : String → Matched) : List (String × Bool) → Page → Outcome Page
  | [], p => .ok p
  | (id, value) :: rest, p =>
      match E ("#" ++ id) with
      | .rejected => .threw .selectorError p
      | .outside => .unmodelled
      | .elements checkbox =>
          let p1 := { p with elems := updateSelected checkbox (fun e => { e with checked := value }) p.elems }
          if value then
            match E ("#card-" ++ id) with
            | .rejected => .threw .selectorError p1
            | .outside => .unmodelled
            | .elements card =>
                applySavedWith E rest
                  { p1 with elems := updateSelected card (fun e => { e with marked := true }) p1.elems }
          else applySavedWith E rest p1

/-- The function `loadSavedState` with the selector engine `E` for `$`. -/
def loadSavedStateWith (E : String → Matched) (w : World) : Outcome World :=
  let schedule (w1 : World) : World :=
    { w1 with timers := w1.timers ++ [(100, Callback.updateProgress)] }
  match w.storage with
  | none => .ok (schedule w)
  | some savedState =>
      if savedState.data.isEmpty then .ok (schedule w)
      else match JSON.parse savedState with
        | .error .syntaxError => .threw .syntaxError w
        | .error .unmodelled => .unmodelled
        | .ok state =>
            match applySavedWith E (forInEntries state) w.page with
            | .ok p => .ok (schedule { w with page := p })
            | .threw e p => .threw e { w with page := p }
            | .unmodelled => .unmodelled

/-- Is position `i` the first position of the list whose element satisfies `p`? -/
def isFirst (p : Elem → Bool) : List Elem → Nat → Bool
  | [], _ => false
  | e :: _, 0 => p e
  | e :: es, i + 1 => !p e && isFirst p es i

/-- The positions a selection of the two modelled forms selects. -/
def maskOf (sel : Selection) (es : List Elem) (i : Nat) : Bool :=
  match sel with
  | .first id => isFirst (fun e => e.id = id) es i
  | .all ids =>
      match es.get? i with
      | some e => decide (e.id ∈ ids)
      | none => false

/-- The engine of the two modelled selector forms: `jq` where it is defined. -/
def jqEngine (selector : String) : Matched :=
  match jq selector with
  | some sel => .elements (maskOf sel)
  | none => .outside

/-! ### Timers -/

/-- The callback of a timer, run when the timer fires. -/
def runCallback (cb : Callback) (w : World) : World :=
  match cb with
  | .updateProgress => updateProgress w
  | .forceUpdateProgress => forceUpdateProgress w

/-- The timer that fires first among timers set in the same task: the one with
the least delay, the earlier one among equal delays. -/
def earliest : List (Nat × Callback) → Option (Nat × Callback)
  | [] => none
  | t :: ts =>
      match earliest ts with
      | none => some t
      | some u => if u.1 < t.1 then some u else some t

/-- The first pending timer fires: it leaves the list and its callback runs. -/
def fireFirst (w : World) : World :=
  match earliest w.timers with
  | none => w
  | some t => runCallback t.2 { w with timers := w.timers.erase t }

/-! ## Notions used in the statements -/

/-- A page before `renderBestPractices` has run: no rendered element, the
success banner hidden, nothing in the reward container. -/
def initialPage : Page :=
  ⟨[], none, none, true, true, none, none, true, false, .empty⟩

/-- A freshly opened page with the given value in `localStorage`. -/
def initialWorld (storage : Option String) : World :=
  ⟨initialPage, storage, 0, [], 0⟩

/-- The world `w` after the user has set the `checked` property of the
checkboxes at the given document positions (no handler has run yet). -/
def withChecked (positions : List Nat) (w : World) : World :=
  let es := w.page.elems.enum.map (fun ie =>
    if ie.2.kind = .check ∧ ie.1 ∈ positions then { ie.2 with checked := true } else ie.2)
  { w with page := { w.page with elems := es } }

/-- A sequence of clicks at the given document positions, each followed by its
`change` handler; the run stops when a handler does not end normally. -/
def clicks : List Nat → World → Outcome World
  | [], w => .ok w
  | i :: rest, w =>
      match toggle i w with
      | .ok w1 => clicks rest w1
      | .threw e w1 => .threw e w1
      | .unmodelled => .unmodelled

/-- The banner is hidden exactly when fewer than 12 boxes are checked. -/
def BannerInSync (w : World) : Prop :=
  w.page.successHidden = decide (checkedCount w.page < REQUIRED_FOR_SUCCESS)

/-- A 2xx response of the image service that reports a failure:
the object with `status` "error" and a `message`. -/
def apiErrorResponse : JVal :=
  .obj (.cons "status" (.str "error") (.cons "message" (.str "Breed not found") .nil))

/-- The checkbox status of the page: id and `checked` of every rendered
checkbox, in document order. -/
def checkStatus (p : Page) : List (String × Bool) :=
  (p.elems.filter (fun e => e.kind = .check)).map (fun e => (e.id, e.checked))

/-- The card status of the page: id and `checked` mark of every rendered card,
in document order. -/
def cardStatus (p : Page) : List (String × Bool) :=
  (p.elems.filter (fun e => e.kind = .card)).map (fun e => (e.id, e.marked))

/-- The checkbox and card status an outcome ends with. -/
def statusOf : Outcome World → Outcome (List (String × Bool) × List (String × Bool))
  | .ok w => .ok (checkStatus w.page, cardStatus w.page)
  | .threw e w => .threw e (checkStatus w.page, cardStatus w.page)
  | .unmodelled => .unmodelled

/-- The card and checkbox of a practice once the user has set it as `a` says:
the checkbox is checked, and its card marked by the change handler, exactly
when `a` holds of the practice id. -/
def checkedCard (a : String → Bool) (practice : Practice) : List Elem :=
  [⟨"card-" ++ practice.id, .card, practice.category, false, a practice.id⟩,
   ⟨practice.id, .check, practice.category, a practice.id, false⟩]

/-- The rendered elements under the assignment `a` of checked and unchecked
to the items of the catalog. -/
def checkedPage (a : String → Bool) : List Elem :=
  (bestPractices.map (checkedCard a)).flatten

/-- The ids of a list of practices are such that the rendered elements have
pairwise distinct ids and every selector built from an id is a plain `#id`. -/
def GoodIds (ps : List Practice) : Prop :=
  (ps.map (fun p => p.id)).Nodup ∧
  (∀ p ∈ ps, ∀ q ∈ ps, p.id ≠ "card-" ++ q.id) ∧
  (∀ p ∈ ps, p.id.data ≠ [] ∧ p.id.data.all (fun d => isIdChar d.toNat) = true)

instance (ps : List Practice) : Decidable (GoodIds ps) := by
  unfold GoodIds
  infer_instance

/-- Characters that `QuoteJSONString` leaves as they are. -/
def PlainChars (cs : List Char) : Prop :=
  ∀ c ∈ cs, c.toNat ≠ 34 ∧ c.toNat ≠ 92 ∧ 32 ≤ c.toNat

/-- The state objects `saveState` can store without escaping or reordering:
distinct keys, none an array index, all of plain characters. -/
def PlainState (st : List (String × Bool)) : Prop :=
  (st.map (fun m => m.1)).Nodup ∧ (∀ m ∈ st, arrayIndex m.1 = none) ∧
  (∀ m ∈ st, PlainChars m.1.data)

/-- The page shows the rendered catalog: its elements have the ids and kinds
`renderBestPractices` creates, in the same order, whatever their `checked`
properties and `checked` classes. -/
def RenderShaped (p : Page) : Prop :=
  p.elems.map (fun e => (e.id, e.kind))
    = (renderBestPractices (initialWorld none)).page.elems.map (fun e => (e.id, e.kind))

/-- The state a callback leaves behind, whether it ended normally or by an
exception. -/
def Outcome.state? {σ : Type} : Outcome σ → Option σ
  | .ok s => some s
  | .threw _ s => some s
  | .unmodelled => none

/-- The states of the page the script can reach: after the document-ready
handler, and from there by a click on an element, a confirmed reset, a timer
callback, the completion of a request, or a click on one of the two reward
buttons. -/
inductive Reachable : World → Prop
  | ready {w w1 : World} : (documentReady w).state? = some w1 → Reachable w1
  | click {w w1 : World} (i : Nat) : Reachable w → (toggle i w).state? = some w1 → Reachable w1
  | reset {w : World} : Reachable w → Reachable (resetProgress w)
  | timer {w : World} (cb : Callback) : Reachable w → Reachable (runCallback cb w)
  | response {w w1 : World} (r : FetchResult) :
      Reachable w → (ajaxComplete r w).state? = some w1 → Reachable w1
  | retry {w : World} : Reachable w → Reachable (clickRetry w)
  | newDog {w : World} : Reachable w → Reachable (clickNewDog w)

/-- In every state of the rendered elements `es0` (same ids and kinds, any
status), the engine accepts the selector and it selects no checkbox. -/
def SelectsNoCheckbox (E : String → Matched) (selector : String) (es0 : List Elem) : Prop :=
  ∃ m, E selector = .elements m ∧
    ∀ es : List Elem, es.map (fun e => (e.id, e.kind)) = es0.map (fun e => (e.id, e.kind)) →
      ∀ i e, es.get? i = some e → m (es.map visible) i = true → e.kind = .card

/-- In every state of the rendered elements `es0`, the engine accepts the
selector and it selects no rendered element, card or checkbox. -/
def SelectsNothing (E : String → Matched) (selector : String) (es0 : List Elem) : Prop :=
  ∃ m, E selector = .elements m ∧
    ∀ es : List Elem, es.map (fun e => (e.id, e.kind)) = es0.map (fun e => (e.id, e.kind)) →
      ∀ i, i < es.length → m (es.map visible) i = false

/-- The engine takes jQuery's id fast path: a selector `#w` with `w` one or
more letters, digits, `_` or `-` selects the first element with the id `w`. -/
def TakesIdFastPath (E : String → Matched) : Prop :=
  ∀ k : String, k.data ≠ [] → k.data.all (fun d => isIdChar d.toNat) = true →
    E ("#" ++ k) = .elements (maskOf (.first k))

/-- The visible elements an outcome ends with. -/
def visibleOf : Outcome Page → Outcome (List Elem)
  | .ok p => .ok (p.elems.map visible)
  | .threw e p => .threw e (p.elems.map visible)
  | .unmodelled => .unmodelled

/-- The engine `E` made to answer each of the listed selectors with the empty
selection, the answer of jQuery for a selector it accepts that matches no
element of the document. -/
def selectingNothing (selectors : List String) (E : String → Matched) (selector : String) :
    Matched :=
  if selector ∈ selectors then .elements (fun _ _ => false) else E selector

/-! ## Verified properties -/

theorem total_practices_eq : TOTAL_PRACTICES = 15 := by decide

theorem percentageOf_table :
    ∀ c, c ≤ 15 → percentageOf c = (200 * c + 15) / 30 ∧ percentageOf c ≤ 100 := by decide

theorem updateProgress_elems (w : World) : (updateProgress w).page.elems = w.page.elems := by
  simp only [updateProgress, showSuccessMessage, hideSuccessMessage, fetchRandomDogImage,
    updateCircularProgress]
  split_ifs <;> rfl

theorem updateProgress_completed (w : World) :
    (updateProgress w).page.completedPractices = some (checkedCount w.page) := by
  simp only [updateProgress, showSuccessMessage, hideSuccessMessage, fetchRandomDogImage,
    updateCircularProgress]
  split_ifs <;> rfl

theorem updateProgress_gauge (w : World) :
    (updateProgress w).page.gauge =
      if w.page.hasCircle then some (percentageOf (checkedCount w.page)) else w.page.gauge := by
  simp only [updateProgress, showSuccessMessage, hideSuccessMessage, fetchRandomDogImage,
    updateCircularProgress]
  split_ifs <;> rfl

theorem updateProgress_label (w : World) :
    (updateProgress w).page.label =
      if w.page.hasCircle && w.page.hasLabel then some (percentageOf (checkedCount w.page))
      else w.page.label := by
  simp only [updateProgress, showSuccessMessage, hideSuccessMessage, fetchRandomDogImage,
    updateCircularProgress]
  split_ifs <;> simp_all

theorem updateProgress_requests (w : World) :
    (updateProgress w).requests =
      w.requests +
        (if REQUIRED_FOR_SUCCESS ≤ checkedCount w.page ∧ w.page.successHidden = true then 1
         else 0) := by
  simp only [updateProgress, showSuccessMessage, hideSuccessMessage, fetchRandomDogImage,
    updateCircularProgress]
  split_ifs <;> simp_all

theorem updateProgress_successHidden (w : World) :
    (updateProgress w).page.successHidden =
      decide (checkedCount w.page < REQUIRED_FOR_SUCCESS) := by
  simp only [updateProgress, showSuccessMessage, hideSuccessMessage, fetchRandomDogImage,
    updateCircularProgress]
  split_ifs <;> simp_all

theorem updateProgress_successState (w : World) :
    (updateProgress w).page.successState =
      decide (REQUIRED_FOR_SUCCESS ≤ checkedCount w.page) := by
  simp only [updateProgress, showSuccessMessage, hideSuccessMessage, fetchRandomDogImage,
    updateCircularProgress]
  split_ifs <;> simp_all

theorem updateProgress_animal (w : World) :
    (updateProgress w).page.animal =
      if REQUIRED_FOR_SUCCESS ≤ checkedCount w.page then
        (if w.page.successHidden then Animal.loading else w.page.animal)
      else Animal.empty := by
  simp only [updateProgress, showSuccessMessage, hideSuccessMessage, fetchRandomDogImage,
    updateCircularProgress]
  split_ifs <;> simp_all

theorem updateProgress_storage (w : World) : (updateProgress w).storage = w.storage := by
  simp only [updateProgress, showSuccessMessage, hideSuccessMessage, fetchRandomDogImage,
    updateCircularProgress]
  split_ifs <;> rfl

theorem updateProgress_checkedCount (w : World) :
    checkedCount (updateProgress w).page = checkedCount w.page := by
  simp only [checkedCount, updateProgress_elems]

/-- C1: for a checked count `c` between 0 and `TOTAL_PRACTICES = 15`, the
percentage `updateProgress` computes is `100 * c / 15` rounded half up, an
integer in `[0, 100]` (0 for 0, 100 for 15), and it is a function of the count
alone: `updateProgress` writes the count to the counter and that percentage to
the gauge and its label. -/
theorem updateProgress_percentage (w : World) (h : checkedCount w.page ≤ TOTAL_PRACTICES) :
    TOTAL_PRACTICES = 15 ∧
    (percentageOf (checkedCount w.page) : ℤ)
      = ⌊(100 * (checkedCount w.page : ℚ)) / 15 + 1 / 2⌋ ∧
    percentageOf (checkedCount w.page) ≤ 100 ∧
    (checkedCount w.page = 0 → percentageOf (checkedCount w.page) = 0) ∧
    (checkedCount w.page = 15 → percentageOf (checkedCount w.page) = 100) ∧
    (updateProgress w).page.completedPractices = some (checkedCount w.page) ∧
    (w.page.hasCircle = true →
      (updateProgress w).page.gauge = some (percentageOf (checkedCount w.page))) ∧
    (w.page.hasCircle = true → w.page.hasLabel = true →
      (updateProgress w).page.label = some (percentageOf (checkedCount w.page))) := by
  rw [total_practices_eq] at h
  have key := percentageOf_table _ h
  refine ⟨total_practices_eq, ?_, key.2, ?_, ?_, updateProgress_completed w, ?_, ?_⟩
  · rw [key.1]
    generalize checkedCount w.page = c at h
    have h1 : 30 * ((200 * c + 15) / 30) ≤ 200 * c + 15 := Nat.mul_div_le (200 * c + 15) 30
    have h2 : 200 * c + 15 < 30 * ((200 * c + 15) / 30 + 1) :=
      Nat.lt_mul_div_succ (200 * c + 15) (by norm_num : 0 < 30)
    generalize (200 * c + 15) / 30 = n at h1 h2
    have h1q : (30 : ℚ) * n ≤ 200 * c + 15 := by exact_mod_cast h1
    have h2q : (200 : ℚ) * c + 15 < 30 * (n + 1) := by exact_mod_cast h2
    rw [eq_comm, Int.floor_eq_iff]
    simp only [Int.cast_natCast]
    constructor <;> linarith
  · intro h0; rw [h0]; decide
  · intro h0; rw [h0]; decide
  · intro hc
    rw [updateProgress_gauge, hc]; rfl
  · intro hc hl
    rw [updateProgress_label, hc, hl]; rfl

/-- Witness for C1: a rendered page with three boxes checked (20 percent). -/
theorem updateProgress_percentage_witness :
    checkedCount (withChecked [1, 3, 5] (renderBestPractices (initialWorld none))).page
        ≤ TOTAL_PRACTICES ∧
      percentageOf
        (checkedCount (withChecked [1, 3, 5] (renderBestPractices (initialWorld none))).page) = 20 ∧
      (updateProgress (withChecked [1, 3, 5] (renderBestPractices (initialWorld none)))).page.label
        = some 20 :=
  ⟨by decide, by decide,
    ((updateProgress_percentage (withChecked [1, 3, 5] (renderBestPractices (initialWorld none)))
      (by decide)).2.2.2.2.2.2.2 rfl rfl).trans (by decide)⟩

theorem includesChars_iff (hay needle : List Char) :
    includesChars hay needle = true ↔ needle <:+: hay := by
  induction hay with
  | nil =>
      simp [includesChars, List.infix_nil]
  | cons c cs ih =>
      rw [includesChars, Bool.or_eq_true, ih, List.infix_cons_iff, List.isPrefixOf_iff_prefix]

theorem includes_iff (s t : String) : includes s t = true ↔ t.data <:+: s.data :=
  includesChars_iff s.data t.data

/-- C10: the difficulty tag of `createPracticeCard` is a function of the id
alone: `Intermediate` when the id contains `responsive`, `organization` or
`variables` (whatever else it contains), otherwise `Advanced` when it contains
`performance`, `global` or `loading`, otherwise `Essential`; the id
`responsive-design` gives `Intermediate` and `semantic-html` gives `Essential`. -/
theorem difficultyTag_by_id (practice : Practice) :
    (("responsive".data <:+: practice.id.data ∨ "organization".data <:+: practice.id.data ∨
        "variables".data <:+: practice.id.data) →
      difficultyTag practice = ("tag-intermediate", "Intermediate")) ∧
    (¬ ("responsive".data <:+: practice.id.data ∨ "organization".data <:+: practice.id.data ∨
        "variables".data <:+: practice.id.data) →
      ("performance".data <:+: practice.id.data ∨ "global".data <:+: practice.id.data ∨
        "loading".data <:+: practice.id.data) →
      difficultyTag practice = ("tag-advanced", "Advanced")) ∧
    (¬ ("responsive".data <:+: practice.id.data ∨ "organization".data <:+: practice.id.data ∨
        "variables".data <:+: practice.id.data) →
      ¬ ("performance".data <:+: practice.id.data ∨ "global".data <:+: practice.id.data ∨
        "loading".data <:+: practice.id.data) →
      difficultyTag practice = ("tag-essential", "Essential")) ∧
    (∀ other : Practice, other.id = practice.id → difficultyTag other = difficultyTag practice) ∧
    (∀ title description category,
      (difficultyTag ⟨"responsive-design", title, description, category⟩).2 = "Intermediate" ∧
      (difficultyTag ⟨"semantic-html", title, description, category⟩).2 = "Essential") := by
  rw [← includes_iff practice.id "responsive", ← includes_iff practice.id "organization",
    ← includes_iff practice.id "variables", ← includes_iff practice.id "performance",
    ← includes_iff practice.id "global", ← includes_iff practice.id "loading"]
  refine ⟨?_, ?_, ?_, ?_, ?_⟩
  · intro h
    have h' : (includes practice.id "responsive" || includes practice.id "organization"
        || includes practice.id "variables") = true := by
      simpa [Bool.or_eq_true, or_assoc] using h
    simp only [difficultyTag, h', if_true]
  · intro h1 h2
    have h1' : (includes practice.id "responsive" || includes practice.id "organization"
        || includes practice.id "variables") = false := by
      simpa [Bool.or_eq_false_iff, not_or, and_assoc] using h1
    have h2' : (includes practice.id "performance" || includes practice.id "global"
        || includes practice.id "loading") = true := by
      simpa [Bool.or_eq_true, or_assoc] using h2
    simp [difficultyTag, h1', h2']
  · intro h1 h2
    have h1' : (includes practice.id "responsive" || includes practice.id "organization"
        || includes practice.id "variables") = false := by
      simpa [Bool.or_eq_false_iff, not_or, and_assoc] using h1
    have h2' : (includes practice.id "performance" || includes practice.id "global"
        || includes practice.id "loading") = false := by
      simpa [Bool.or_eq_false_iff, not_or, and_assoc] using h2
    simp [difficultyTag, h1', h2']
  · intro other h
    simp only [difficultyTag, h]
  · intro title description category
    exact ⟨rfl, rfl⟩

/-- Witness for C10: `lazy-loading` contains `loading` and no intermediate
keyword, so its tag is `Advanced`. -/
theorem difficultyTag_by_id_witness :
    difficultyTag ⟨"lazy-loading", "Implement Lazy Loading", "", .js⟩
      = ("tag-advanced", "Advanced") :=
  (difficultyTag_by_id ⟨"lazy-loading", "Implement Lazy Loading", "", .js⟩).2.1
    (by rw [← includes_iff, ← includes_iff, ← includes_iff]; decide)
    (by rw [← includes_iff, ← includes_iff, ← includes_iff]; decide)

/-- C3: after every run of `updateProgress` the success banner is visible
exactly when the checked count is at least 12, and so is the gauge's
`success-state` mark; below 12 the banner is hidden, the gauge unmarked and
the reward container empty. -/
theorem updateProgress_success_display (w : World) :
    ((updateProgress w).page.successHidden = false ↔
      REQUIRED_FOR_SUCCESS ≤ checkedCount (updateProgress w).page) ∧
    ((updateProgress w).page.successState = true ↔
      REQUIRED_FOR_SUCCESS ≤ checkedCount (updateProgress w).page) ∧
    REQUIRED_FOR_SUCCESS = 12 ∧
    checkedCount (updateProgress w).page = checkedCount w.page ∧
    (checkedCount w.page < REQUIRED_FOR_SUCCESS →
      (updateProgress w).page.successHidden = true ∧
      (updateProgress w).page.successState = false ∧
      (updateProgress w).page.animal = Animal.empty) := by
  rw [updateProgress_checkedCount, updateProgress_successHidden, updateProgress_successState,
    updateProgress_animal]
  refine ⟨by simp, by simp, rfl, rfl, ?_⟩
  intro h
  simp [h, Nat.not_le.mpr h]

/-- Witness for C3: with eleven boxes checked and a stale reward on display,
`updateProgress` hides the banner and empties the container. -/
theorem updateProgress_success_display_witness :
    (updateProgress (withChecked [1, 3, 5, 7, 9, 11, 13, 15, 17, 19, 21]
      { renderBestPractices (initialWorld none) with
        page := { (renderBestPractices (initialWorld none)).page with
          successHidden := false, successState := true, animal := .notice } })).page.animal
      = Animal.empty :=
  ((updateProgress_success_display _).2.2.2.2 (by decide)).2.2

theorem bannerInSync_updateProgress (w : World) : BannerInSync (updateProgress w) := by
  unfold BannerInSync
  rw [updateProgress_successHidden, updateProgress_checkedCount]

theorem toggle_ok_cases {i : Nat} {w w1 : World} (h : toggle i w = .ok w1) :
    w1 = w ∨ ∃ w2, w1 = updateProgress (saveState w2) ∧ w2.requests = w.requests ∧
      w2.page.successHidden = w.page.successHidden := by
  unfold toggle at h
  split at h
  · split at h
    · unfold changeHandler at h
      simp only [] at h
      split at h
      · exact Outcome.noConfusion h
      · right
        injection h with h
        exact ⟨_, h.symm, rfl, rfl⟩
    · injection h with h
      exact Or.inl h.symm
  · injection h with h
    exact Or.inl h.symm

theorem saveState_page (w : World) : (saveState w).page = w.page := rfl

theorem saveState_requests (w : World) : (saveState w).requests = w.requests := rfl

theorem bannerInSync_toggle {i : Nat} {w w1 : World} (hw : BannerInSync w)
    (h : toggle i w = .ok w1) : BannerInSync w1 := by
  rcases toggle_ok_cases h with rfl | ⟨w2, rfl, -, -⟩
  · exact hw
  · exact bannerInSync_updateProgress _

theorem bannerInSync_clicks (is : List Nat) {w w1 : World} (hw : BannerInSync w)
    (h : clicks is w = .ok w1) : BannerInSync w1 := by
  induction is generalizing w with
  | nil =>
      simp only [clicks] at h
      injection h with h
      exact h ▸ hw
  | cons i rest ih =>
      simp only [clicks] at h
      split at h
      · next w2 h2 => exact ih (bannerInSync_toggle hw h2) h
      · exact Outcome.noConfusion h
      · exact Outcome.noConfusion h

theorem toggle_requests {i : Nat} {w w1 : World} (hw : BannerInSync w)
    (h : toggle i w = .ok w1) :
    w1.requests = w.requests +
      (if checkedCount w.page < REQUIRED_FOR_SUCCESS ∧
          REQUIRED_FOR_SUCCESS ≤ checkedCount w1.page then 1 else 0) := by
  rcases toggle_ok_cases h with rfl | ⟨w2, rfl, hr, hh⟩
  · have : ¬ (checkedCount w1.page < REQUIRED_FOR_SUCCESS ∧
        REQUIRED_FOR_SUCCESS ≤ checkedCount w1.page) := by omega
    simp [this]
  · rw [updateProgress_requests, updateProgress_checkedCount, saveState_page, saveState_requests,
      hr, hh, hw]
    congr 1
    simp only [decide_eq_true_eq]
    split_ifs with h1 h2 h2 <;> first | rfl | (exfalso; tauto)

/-- C2: one run of `updateProgress` issues exactly one reward request when the
checked count is at least 12 and the banner was hidden, and none otherwise.
Hence, after the initial `updateProgress` and any sequence of checkbox clicks,
a click that takes the count from 11 to 12 issues exactly one request, and a
click made while 12 or more are checked (banner shown) issues none. -/
theorem updateProgress_fetch_once :
    (∀ w : World,
      (updateProgress w).requests = w.requests +
        (if 12 ≤ checkedCount w.page ∧ w.page.successHidden = true then 1 else 0)) ∧
    (∀ (w0 : World) (is : List Nat) (w : World) (i : Nat) (w1 : World),
      clicks is (updateProgress w0) = .ok w → toggle i w = .ok w1 →
        (checkedCount w.page = 11 → checkedCount w1.page = 12 →
          w1.requests = w.requests + 1 ∧ w1.page.successHidden = false) ∧
        (12 ≤ checkedCount w.page → w.page.successHidden = false ∧ w1.requests = w.requests)) := by
  refine ⟨fun w => updateProgress_requests w, ?_⟩
  intro w0 is w i w1 hrun htog
  have hw : BannerInSync w := bannerInSync_clicks is (bannerInSync_updateProgress w0) hrun
  have hw1 : BannerInSync w1 := bannerInSync_toggle hw htog
  have hreq := toggle_requests hw htog
  unfold BannerInSync at hw hw1
  simp only [REQUIRED_FOR_SUCCESS] at hw hw1 hreq
  constructor
  · intro h11 h12
    rw [h11, h12] at hreq
    rw [h12] at hw1
    exact ⟨by simpa using hreq, by simpa using hw1⟩
  · intro h12
    refine ⟨by rw [hw]; simp; omega, ?_⟩
    rw [hreq]
    have : ¬ (checkedCount w.page < 12 ∧ 12 ≤ checkedCount w1.page) := by omega
    simp [this]

/-- Witness for C2: on the rendered page with eleven boxes checked, after the
initial `updateProgress`, a click on the twelfth checkbox issues the first
request. -/
theorem updateProgress_fetch_once_witness :
    ∃ w1, toggle 23 (updateProgress (withChecked [1, 3, 5, 7, 9, 11, 13, 15, 17, 19, 21]
        (renderBestPractices (initialWorld none)))) = .ok w1 ∧ w1.requests = 1 := by
  refine ⟨_, rfl, ?_⟩
  exact ((updateProgress_fetch_once.2
    (withChecked [1, 3, 5, 7, 9, 11, 13, 15, 17, 19, 21] (renderBestPractices (initialWorld none)))
    [] _ 23 _ rfl rfl).1 (by decide) (by decide)).1

theorem renderBestPractices_elems (w : World) :
    (renderBestPractices w).page.elems = (renderBestPractices (initialWorld none)).page.elems :=
  rfl

theorem renderBestPractices_storage (w : World) : (renderBestPractices w).storage = w.storage :=
  rfl

theorem loadSavedState_absent (w : World) (h : w.storage = none) :
    loadSavedState w = .ok { w with timers := w.timers ++ [(100, Callback.updateProgress)] } := by
  unfold loadSavedState
  simp only [h]

/-- C6: with nothing stored under `'bestPracticesState'`, `loadSavedState` on a
fresh render ends normally and changes no element, so the 15 checkboxes are
unchecked and no card is marked, and the `updateProgress` that follows reports
a checked count of 0 and a percentage of 0. -/
theorem loadSavedState_no_prior_state (w : World) (h : w.storage = none) :
    ∃ w1, loadSavedState (renderBestPractices w) = .ok w1 ∧
      w1.page = (renderBestPractices w).page ∧
      (w1.page.elems.filter (fun e => e.kind = .check)).length = 15 ∧
      (∀ e ∈ w1.page.elems, e.checked = false ∧ e.marked = false) ∧
      checkedCount w1.page = 0 ∧
      (updateProgress w1).page.completedPractices = some 0 ∧
      percentageOf (checkedCount w1.page) = 0 ∧
      (w.page.hasCircle = true → (updateProgress w1).page.gauge = some 0) ∧
      (w.page.hasCircle = true → w.page.hasLabel = true →
        (updateProgress w1).page.label = some 0) := by
  have hs : (renderBestPractices w).storage = none := h
  refine ⟨_, loadSavedState_absent _ hs, rfl, ?_⟩
  have hcount : checkedCount { renderBestPractices w with
      timers := (renderBestPractices w).timers ++ [(100, Callback.updateProgress)] }.page = 0 := by
    show checkedCount (renderBestPractices (initialWorld none)).page = 0
    decide
  refine ⟨?_, ?_, hcount, ?_, ?_, ?_, ?_⟩
  · show ((renderBestPractices (initialWorld none)).page.elems.filter
      (fun e => e.kind = .check)).length = 15
    decide
  · show ∀ e ∈ (renderBestPractices (initialWorld none)).page.elems,
      e.checked = false ∧ e.marked = false
    decide
  · rw [updateProgress_completed, hcount]
  · rw [hcount]; decide
  · intro hc
    rw [updateProgress_gauge, hcount]
    have : (renderBestPractices w).page.hasCircle = true := hc
    simp only [this, if_true]
    rfl
  · intro hc hl
    rw [updateProgress_label, hcount]
    have h1 : (renderBestPractices w).page.hasCircle = true := hc
    have h2 : (renderBestPractices w).page.hasLabel = true := hl
    simp only [h1, h2, Bool.and_self, if_true]
    rfl

/-- Witness for C6: a freshly opened page with an empty `localStorage`. -/
theorem loadSavedState_no_prior_state_witness :
    ∃ w1, loadSavedState (renderBestPractices (initialWorld none)) = .ok w1 ∧
      checkedCount w1.page = 0 ∧ (updateProgress w1).page.label = some 0 := by
  obtain ⟨w1, h1, -, -, -, h5, -, -, -, h9⟩ :=
    loadSavedState_no_prior_state (initialWorld none) rfl
  exact ⟨w1, h1, h5, h9 rfl rfl⟩

theorem checkedCount_eq_zero_of_unchecked (p : Page)
    (h : ∀ e ∈ p.elems, e.kind = .check → e.checked = false) : checkedCount p = 0 := by
  unfold checkedCount
  rw [List.length_eq_zero, List.filter_eq_nil_iff]
  intro e he
  by_cases hk : e.kind = .check
  · simp [h e he hk]
  · simp [hk]

theorem resetProgress_page_elems (w : World) :
    (resetProgress w).page.elems =
      (w.page.elems.map
        (fun e => if e.kind = .check then { e with checked := false } else e)).map
        (fun e => if e.kind = .card then { e with marked := false } else e) := by
  unfold resetProgress
  simp only [updateProgress_elems]

/-- C7: whatever the page and the stored state, `resetProgress` leaves every
checkbox unchecked and every card unmarked, removes the stored
`'bestPracticesState'` entry (a later `loadSavedState` finds nothing and
changes nothing), and its `updateProgress` reports a checked count of 0 and a
percentage of 0 with the success display off. -/
theorem resetProgress_clears (w : World) :
    (∀ e ∈ (resetProgress w).page.elems, e.kind = .check → e.checked = false) ∧
    (∀ e ∈ (resetProgress w).page.elems, e.kind = .card → e.marked = false) ∧
    (resetProgress w).storage = none ∧
    loadSavedState (resetProgress w) =
      .ok { resetProgress w with
        timers := (resetProgress w).timers ++ [(100, Callback.updateProgress)] } ∧
    checkedCount (resetProgress w).page = 0 ∧
    (resetProgress w).page.completedPractices = some 0 ∧
    percentageOf (checkedCount (resetProgress w).page) = 0 ∧
    (w.page.hasCircle = true → (resetProgress w).page.gauge = some 0) ∧
    (w.page.hasCircle = true → w.page.hasLabel = true →
      (resetProgress w).page.label = some 0) ∧
    (resetProgress w).page.successHidden = true ∧
    (resetProgress w).page.successState = false ∧
    (resetProgress w).page.animal = Animal.empty ∧
    (resetProgress w).requests = w.requests := by
  have hcheck : ∀ e ∈ (resetProgress w).page.elems, e.kind = .check → e.checked = false := by
    intro e he hk
    rw [resetProgress_page_elems] at he
    simp only [List.mem_map] at he
    obtain ⟨e1, ⟨e0, -, rfl⟩, rfl⟩ := he
    cases h0 : e0.kind <;> simp_all
  have hcard : ∀ e ∈ (resetProgress w).page.elems, e.kind = .card → e.marked = false := by
    intro e he hk
    rw [resetProgress_page_elems] at he
    simp only [List.mem_map] at he
    obtain ⟨e1, -, rfl⟩ := he
    cases h1 : e1.kind <;> simp_all
  have hstore : (resetProgress w).storage = none := by
    unfold resetProgress
    simp only [updateProgress_storage]
  have hcount : checkedCount (resetProgress w).page = 0 :=
    checkedCount_eq_zero_of_unchecked _ hcheck
  have hcheck1 := hcheck
  rw [resetProgress_page_elems] at hcheck1
  refine ⟨hcheck, hcard, hstore, loadSavedState_absent _ hstore, hcount, ?_, ?_, ?_, ?_, ?_, ?_,
    ?_, ?_⟩
  · unfold resetProgress
    simp only [updateProgress_completed]
    rw [checkedCount_eq_zero_of_unchecked _ hcheck1]
  · rw [hcount]; decide
  · intro hc
    unfold resetProgress
    simp only [updateProgress_gauge, hc, if_true]
    rw [checkedCount_eq_zero_of_unchecked _ hcheck1]
    rfl
  · intro hc hl
    unfold resetProgress
    simp only [updateProgress_label, hc, hl, Bool.and_self, if_true]
    rw [checkedCount_eq_zero_of_unchecked _ hcheck1]
    rfl
  · unfold resetProgress
    simp only [updateProgress_successHidden]
    rw [checkedCount_eq_zero_of_unchecked _ hcheck1]
    rfl
  · unfold resetProgress
    simp only [updateProgress_successState]
    rw [checkedCount_eq_zero_of_unchecked _ hcheck1]
    rfl
  · unfold resetProgress
    simp only [updateProgress_animal]
    rw [checkedCount_eq_zero_of_unchecked _ hcheck1]
    rfl
  · unfold resetProgress
    simp only [updateProgress_requests]
    rw [checkedCount_eq_zero_of_unchecked _ hcheck1]
    rfl

/-- Witness for C7: reset of a page with thirteen boxes checked, the banner
shown and a saved state. -/
theorem resetProgress_clears_witness :
    (resetProgress (saveState (updateProgress
      (withChecked [1, 3, 5, 7, 9, 11, 13, 15, 17, 19, 21, 23, 25]
        (renderBestPractices (initialWorld none)))))).page.label = some 0 :=
  (resetProgress_clears _).2.2.2.2.2.2.2.2.1 rfl rfl

/-- C8 (the code departs from the claim): a request that times out, fails on
the network, returns an HTTP error or an unparsable body reaches the `error`
callback, which shows the notice with the retry button (a click on it calls
`fetchRandomDogImage`) and issues no request by itself; but a 2xx response
whose `status` is not `'success'` reaches the `else` branch of `success`, which
shows the notice without any retry control, and a `null` response raises a
`TypeError` and leaves the loading indicator. -/
theorem ajax_failure_paths (w : World) :
    (∀ r : FetchResult,
      r = .timeout ∨ r = .networkError ∨ (∃ s, r = .httpError s) ∨ r = .parserError →
      ∃ w1, ajaxComplete r w = .ok w1 ∧ w1.page.animal = Animal.noticeRetry ∧
        w1.requests = w.requests ∧ clickRetry w1 = fetchRandomDogImage w1 ∧
        (clickRetry w1).requests = w.requests + 1) ∧
    (∃ w1, ajaxComplete (.json (some apiErrorResponse)) w = .ok w1 ∧
      w1.page.animal = Animal.notice ∧ w1.page.animal ≠ Animal.noticeRetry ∧
      clickRetry w1 = w1 ∧ w1.requests = w.requests) ∧
    ajaxComplete (.json (some .null)) (fetchRandomDogImage w)
      = .threw .typeError (fetchRandomDogImage w) ∧
    (fetchRandomDogImage w).page.animal = Animal.loading := by
  refine ⟨?_, ?_, rfl, rfl⟩
  · intro r hr
    rcases hr with rfl | rfl | ⟨s, rfl⟩ | rfl <;>
      exact ⟨_, rfl, rfl, rfl, rfl, rfl⟩
  · refine ⟨_, rfl, rfl, ?_, rfl, rfl⟩
    intro h
    exact Animal.noConfusion h

/-- Witness for C8: a time-out on the freshly opened page after its first
request. -/
theorem ajax_failure_paths_witness :
    ∃ w1, ajaxComplete .timeout (fetchRandomDogImage (initialWorld none)) = .ok w1 ∧
      w1.page.animal = Animal.noticeRetry ∧ w1.requests = 1 := by
  obtain ⟨w1, h1, h2, h3, -, -⟩ :=
    (ajax_failure_paths (fetchRandomDogImage (initialWorld none))).1 .timeout (Or.inl rfl)
  exact ⟨w1, h1, h2, h3⟩

/-- Counterexample to C5: the stored text `{"https":tru` is not JSON;
`loadSavedState` on the fresh render raises the `SyntaxError` of `JSON.parse`
(and the document-ready handler ends with it) instead of treating the value
as the empty state. -/
theorem loadSavedState_malformed_counterexample :
    JSON.parse "\x7b\"https\":tru" = .error .syntaxError ∧
    loadSavedState (renderBestPractices (initialWorld (some "\x7b\"https\":tru")))
      = .threw .syntaxError (renderBestPractices (initialWorld (some "\x7b\"https\":tru"))) ∧
    (∀ w1, loadSavedState (renderBestPractices (initialWorld (some "\x7b\"https\":tru")))
      ≠ .ok w1) ∧
    (∀ w1, documentReady (initialWorld (some "\x7b\"https\":tru")) ≠ .ok w1) := by
  refine ⟨rfl, rfl, ?_, ?_⟩
  · intro w1 h
    have h2 : loadSavedState (renderBestPractices (initialWorld (some "\x7b\"https\":tru")))
      = .threw .syntaxError (renderBestPractices (initialWorld (some "\x7b\"https\":tru"))) := rfl
    rw [h2] at h
    exact Outcome.noConfusion h
  · intro w1 h
    have h2 : documentReady (initialWorld (some "\x7b\"https\":tru"))
      = .threw .syntaxError (renderBestPractices
          { initialWorld (some "\x7b\"https\":tru") with
            page := { initialPage with totalPractices := some TOTAL_PRACTICES } }) := rfl
    rw [h2] at h
    exact Outcome.noConfusion h

/-- C5 as amended: a stored value that `JSON.parse` rejects is treated as the
empty state only when it is the empty string (no error, nothing changed, the
delayed `updateProgress` scheduled, exactly as when nothing is stored); for
any other malformed text `loadSavedState` raises the `SyntaxError` of
`JSON.parse`, having changed no checkbox and no card and scheduled nothing. -/
theorem loadSavedState_malformed (w : World) (raw : String) (hs : w.storage = some raw)
    (hmal : JSON.parse raw = .error .syntaxError) :
    (raw.data = [] →
      loadSavedState w = .ok { w with timers := w.timers ++ [(100, Callback.updateProgress)] } ∧
      loadSavedState w =
        (match loadSavedState { w with storage := none } with
          | .ok w1 => .ok { w1 with storage := w.storage }
          | other => other)) ∧
    (raw.data ≠ [] → loadSavedState w = .threw .syntaxError w) := by
  constructor
  · intro he
    have h1 : loadSavedState w
        = .ok { w with timers := w.timers ++ [(100, Callback.updateProgress)] } := by
      unfold loadSavedState
      simp only [hs, he, List.isEmpty_nil, if_true]
    refine ⟨h1, ?_⟩
    rw [h1, loadSavedState_absent { w with storage := none } rfl]
  · intro hne
    unfold loadSavedState
    have : raw.data.isEmpty = false := by
      cases hd : raw.data with
      | nil => exact absurd hd hne
      | cons c cs => rfl
    simp only [hs, this, hmal]
    rfl

/-- Witness for C5 as amended: the text `not json` on the fresh render. -/
theorem loadSavedState_malformed_witness :
    loadSavedState (renderBestPractices (initialWorld (some "not json")))
      = .threw .syntaxError (renderBestPractices (initialWorld (some "not json"))) :=
  (loadSavedState_malformed (renderBestPractices (initialWorld (some "not json"))) "not json"
    rfl rfl).2 (by decide)

theorem jq_plain (k : String) (hne : k.data ≠ [])
    (hplain : k.data.all (fun d => isIdChar d.toNat) = true) :
    jq ("#" ++ k) = some (.first k) := by
  obtain ⟨cs⟩ := k
  cases cs with
  | nil => exact absurd rfl hne
  | cons c rest =>
      have hd : ("#" ++ (⟨c :: rest⟩ : String)).data = '#' :: c :: rest := rfl
      simp only [jq, hd]
      have h35 : ('#' : Char).toNat = 35 := rfl
      simp only [h35, true_and]
      rw [if_pos hplain]

theorem jq_card_plain (k : String)
    (hplain : k.data.all (fun d => isIdChar d.toNat) = true) :
    jq ("#card-" ++ k) = some (.first ("card-" ++ k)) := by
  obtain ⟨cs⟩ := k
  have hd : ("#card-" ++ (⟨cs⟩ : String)).data = '#' :: 'c' :: ('a' :: 'r' :: 'd' :: '-' :: cs) :=
    rfl
  simp only [jq, hd]
  have h35 : ('#' : Char).toNat = 35 := rfl
  have hall : ('c' :: 'a' :: 'r' :: 'd' :: '-' :: cs).all (fun d => isIdChar d.toNat) = true := by
    simp only [List.all_cons, hplain, Bool.and_true]
    decide
  simp only [h35, true_and]
  rw [if_pos hall]
  rfl

theorem updFirst_shape (p : Elem → Bool) (f : Elem → Elem)
    (hf : ∀ e, (f e).id = e.id ∧ (f e).kind = e.kind) (es : List Elem) :
    (updFirst p f es).map (fun e => (e.id, e.kind)) = es.map (fun e => (e.id, e.kind)) := by
  induction es with
  | nil => rfl
  | cons e es ih =>
      simp only [updFirst]
      split
      · simp only [List.map_cons, (hf e).1, (hf e).2]
      · simp only [List.map_cons, ih]

theorem Selection.update_shape (sel : Selection) (f : Elem → Elem)
    (hf : ∀ e, (f e).id = e.id ∧ (f e).kind = e.kind) (es : List Elem) :
    (sel.update f es).map (fun e => (e.id, e.kind)) = es.map (fun e => (e.id, e.kind)) := by
  cases sel with
  | first k => exact updFirst_shape _ f hf es
  | all ids =>
      simp only [Selection.update, List.map_map]
      apply List.map_congr_left
      intro e _
      simp only [Function.comp]
      split
      · simp only [(hf e).1, (hf e).2]
      · rfl

theorem applySaved_shape (entries : List (String × Bool)) (p q : Page)
    (h : applySaved entries p = some q) :
    q.elems.map (fun e => (e.id, e.kind)) = p.elems.map (fun e => (e.id, e.kind)) := by
  induction entries generalizing p with
  | nil =>
      simp only [applySaved, Option.some.injEq] at h
      rw [h]
  | cons kv rest ih =>
      obtain ⟨k, v⟩ := kv
      simp only [applySaved] at h
      cases h1 : jq ("#" ++ k) with
      | none => simp [h1] at h
      | some checkbox =>
          simp only [h1] at h
          have hc := Selection.update_shape checkbox (fun e => { e with checked := v })
            (fun _ => ⟨rfl, rfl⟩) p.elems
          cases v with
          | false =>
              simp only [Bool.false_eq_true, if_false] at h
              rw [ih _ h]
              exact hc
          | true =>
              simp only [if_true] at h
              cases h2 : jq ("#card-" ++ k) with
              | none => simp [h2] at h
              | some card =>
                  simp only [h2] at h
                  rw [ih _ h]
                  simp only []
                  rw [Selection.update_shape card (fun e => { e with marked := true })
                    (fun _ => ⟨rfl, rfl⟩)]
                  exact hc

/-- Counterexample to C9: the stored key `x,#semantic-html` is the id of no
rendered element, yet `loadSavedState` does not ignore it: the selector
`#x,#semantic-html` built from it selects the checkbox `semantic-html`, which
ends checked, while with the key not stored it stays unchecked. -/
theorem loadSavedState_unknown_key_counterexample :
    (∀ e ∈ (renderBestPractices (initialWorld none)).page.elems, e.id ≠ "x,#semantic-html") ∧
    JSON.parse "\x7b\"x,#semantic-html\":true\x7d"
      = .ok (.obj (.cons "x,#semantic-html" (.bool true) .nil)) ∧
    JSON.parse "\x7b\x7d" = .ok (.obj .nil) ∧
    ∃ w1 w2,
      loadSavedState
        (renderBestPractices (initialWorld (some "\x7b\"x,#semantic-html\":true\x7d"))) = .ok w1 ∧
      loadSavedState (renderBestPractices (initialWorld (some "\x7b\x7d"))) = .ok w2 ∧
      ("semantic-html", true) ∈ checkStatus w1.page ∧
      ("semantic-html", false) ∈ checkStatus w2.page ∧
      checkStatus w1.page ≠ checkStatus w2.page := by
  refine ⟨by decide, rfl, rfl, _, _, rfl, rfl, by decide, by decide, by decide⟩

theorem visible_id (e : Elem) : (visible e).id = e.id := by
  unfold visible; split <;> rfl

theorem visible_kind (e : Elem) : (visible e).kind = e.kind := by
  unfold visible; split <;> rfl

theorem visible_setChecked (v : Bool) (e e1 : Elem) (h : visible e = visible e1) :
    visible { e with checked := v } = visible { e1 with checked := v } := by
  rcases e with ⟨id, kind, c, ch, m⟩
  rcases e1 with ⟨id1, kind1, c1, ch1, m1⟩
  cases kind <;> cases kind1 <;> simp_all [visible]

theorem visible_setMarked (v : Bool) (e e1 : Elem) (h : visible e = visible e1) :
    visible { e with marked := v } = visible { e1 with marked := v } := by
  rcases e with ⟨id, kind, c, ch, m⟩
  rcases e1 with ⟨id1, kind1, c1, ch1, m1⟩
  cases kind <;> cases kind1 <;> simp_all [visible]

theorem updateAt_shape (sel : Nat → Bool) (f : Elem → Elem)
    (hf : ∀ e, (f e).id = e.id ∧ (f e).kind = e.kind) (k : Nat) (es : List Elem) :
    (updateAt sel f k es).map (fun e => (e.id, e.kind)) = es.map (fun e => (e.id, e.kind)) := by
  induction es generalizing k with
  | nil => rfl
  | cons e es ih =>
      simp only [updateAt, List.map_cons, ih]
      split
      · simp only [(hf e).1, (hf e).2]
      · rfl

theorem updateAt_visible_congr (sel : Nat → Bool) (f : Elem → Elem)
    (hf : ∀ e e1, visible e = visible e1 → visible (f e) = visible (f e1))
    (k : Nat) (es es1 : List Elem) (h : es.map visible = es1.map visible) :
    (updateAt sel f k es).map visible = (updateAt sel f k es1).map visible := by
  induction es generalizing k es1 with
  | nil =>
      cases es1 with
      | nil => rfl
      | cons e1 es1 => simp at h
  | cons e es ih =>
      cases es1 with
      | nil => simp at h
      | cons e1 es1 =>
          simp only [List.map_cons, List.cons.injEq] at h
          simp only [updateAt, List.map_cons, ih (k + 1) es1 h.2]
          split
          · rw [hf e e1 h.1]
          · rw [h.1]

theorem updateSelected_visible_congr (m : List Elem → Nat → Bool) (f : Elem → Elem)
    (hf : ∀ e e1, visible e = visible e1 → visible (f e) = visible (f e1))
    (es es1 : List Elem) (h : es.map visible = es1.map visible) :
    (updateSelected m f es).map visible = (updateSelected m f es1).map visible := by
  unfold updateSelected
  rw [h]
  exact updateAt_visible_congr _ f hf 0 es es1 h

theorem updateSelected_shape (m : List Elem → Nat → Bool) (f : Elem → Elem)
    (hf : ∀ e, (f e).id = e.id ∧ (f e).kind = e.kind) (es : List Elem) :
    (updateSelected m f es).map (fun e => (e.id, e.kind)) = es.map (fun e => (e.id, e.kind)) :=
  updateAt_shape _ f hf 0 es

theorem applySavedWith_congr (E : String → Matched) (entries : List (String × Bool))
    (p q : Page) (h : p.elems.map visible = q.elems.map visible) :
    visibleOf (applySavedWith E entries p) = visibleOf (applySavedWith E entries q) := by
  induction entries generalizing p q with
  | nil => simp only [applySavedWith, visibleOf, h]
  | cons kv rest ih =>
      obtain ⟨k, v⟩ := kv
      simp only [applySavedWith]
      cases h1 : E ("#" ++ k) with
      | rejected => simp only [visibleOf, h]
      | outside => rfl
      | elements checkbox =>
          simp only []
          have hc := updateSelected_visible_congr checkbox _ (visible_setChecked v) _ _ h
          cases v with
          | false =>
              simp only [Bool.false_eq_true, if_false]
              exact ih _ _ hc
          | true =>
              simp only [if_true]
              cases h2 : E ("#card-" ++ k) with
              | rejected => simp only [visibleOf, hc]
              | outside => rfl
              | elements card =>
                  simp only []
                  exact ih _ _ (updateSelected_visible_congr card _ (visible_setMarked true) _ _ hc)

theorem applySavedWith_shape (E : String → Matched) (entries : List (String × Bool))
    (p q : Page) (h : (applySavedWith E entries p).state? = some q) :
    q.elems.map (fun e => (e.id, e.kind)) = p.elems.map (fun e => (e.id, e.kind)) := by
  induction entries generalizing p with
  | nil =>
      simp only [applySavedWith, Outcome.state?, Option.some.injEq] at h
      rw [h]
  | cons kv rest ih =>
      obtain ⟨k, v⟩ := kv
      simp only [applySavedWith] at h
      cases h1 : E ("#" ++ k) with
      | rejected =>
          simp only [h1, Outcome.state?, Option.some.injEq] at h
          rw [h]
      | outside => simp [h1, Outcome.state?] at h
      | elements checkbox =>
          simp only [h1] at h
          have hc := updateSelected_shape checkbox (fun e => { e with checked := v })
            (fun _ => ⟨rfl, rfl⟩) p.elems
          cases v with
          | false =>
              simp only [Bool.false_eq_true, if_false] at h
              rw [ih _ h]
              exact hc
          | true =>
              simp only [if_true] at h
              cases h2 : E ("#card-" ++ k) with
              | rejected =>
                  simp only [h2, Outcome.state?, Option.some.injEq] at h
                  rw [← h]
                  exact hc
              | outside => simp [h2, Outcome.state?] at h
              | elements card =>
                  simp only [h2] at h
                  rw [ih _ h]
                  simp only []
                  rw [updateSelected_shape card (fun e => { e with marked := true })
                    (fun _ => ⟨rfl, rfl⟩)]
                  exact hc

theorem applySavedWith_append (E : String → Matched) (es1 es2 : List (String × Bool))
    (p : Page) :
    applySavedWith E (es1 ++ es2) p =
      match applySavedWith E es1 p with
      | .ok q => applySavedWith E es2 q
      | .threw e q => .threw e q
      | .unmodelled => .unmodelled := by
  induction es1 generalizing p with
  | nil => rfl
  | cons kv rest ih =>
      obtain ⟨k, v⟩ := kv
      simp only [List.cons_append, applySavedWith]
      cases E ("#" ++ k) with
      | rejected => rfl
      | outside => rfl
      | elements checkbox =>
          simp only []
          cases v with
          | false => simp only [Bool.false_eq_true, if_false]; exact ih _
          | true =>
              simp only [if_true]
              cases E ("#card-" ++ k) with
              | rejected => rfl
              | outside => rfl
              | elements card => exact ih _

theorem updateAt_only_cards (sel : Nat → Bool) (v : Bool) (k : Nat) (es : List Elem)
    (h : ∀ j e, es.get? j = some e → sel (k + j) = true → e.kind = .card) :
    (updateAt sel (fun e => { e with checked := v }) k es).map visible = es.map visible := by
  induction es generalizing k with
  | nil => rfl
  | cons e es ih =>
      have ht : (updateAt sel (fun e => { e with checked := v }) (k + 1) es).map visible
          = es.map visible := by
        apply ih
        intro j e1 he1 hs
        apply h (j + 1) e1
        · simpa using he1
        · rw [← Nat.add_assoc, Nat.add_right_comm]; exact hs
      simp only [updateAt, List.map_cons, ht]
      split
      · next hs =>
          have hk : e.kind = .card := h 0 e rfl (by simpa using hs)
          rcases e with ⟨id, kind, c, ch, m⟩
          simp only at hk
          subst hk
          rfl
      · rfl

theorem updateAt_none (sel : Nat → Bool) (f : Elem → Elem) (k : Nat) (es : List Elem)
    (h : ∀ j, j < es.length → sel (k + j) = false) : updateAt sel f k es = es := by
  induction es generalizing k with
  | nil => rfl
  | cons e es ih =>
      have h0 : sel k = false := by simpa using h 0 (by simp)
      have ht : updateAt sel f (k + 1) es = es := by
        apply ih
        intro j hj
        have := h (j + 1) (by simpa using hj)
        rw [← Nat.add_assoc, Nat.add_right_comm] at this
        exact this
      simp only [updateAt, h0, Bool.false_eq_true, if_false, ht]

theorem applySavedWith_ignored (E : String → Matched) (key : String) (value : Bool)
    (rest : List (String × Bool)) (es0 : List Elem) (p : Page)
    (hshape : p.elems.map (fun e => (e.id, e.kind)) = es0.map (fun e => (e.id, e.kind)))
    (hsel : SelectsNoCheckbox E ("#" ++ key) es0)
    (hcard : value = true → SelectsNothing E ("#card-" ++ key) es0) :
    visibleOf (applySavedWith E ((key, value) :: rest) p)
      = visibleOf (applySavedWith E rest p) := by
  obtain ⟨m, hm, hmsel⟩ := hsel
  have h1 : (updateSelected m (fun e => { e with checked := value }) p.elems).map visible
      = p.elems.map visible := by
    unfold updateSelected
    apply updateAt_only_cards
    intro j e he hs
    rw [Nat.zero_add] at hs
    exact hmsel p.elems hshape j e he hs
  simp only [applySavedWith, hm]
  cases value with
  | false =>
      simp only [Bool.false_eq_true, if_false]
      exact applySavedWith_congr E rest _ _ h1
  | true =>
      obtain ⟨m1, hm1, hm1sel⟩ := hcard rfl
      simp only [if_true, hm1]
      apply applySavedWith_congr E rest _ _
      have hshape1 : (updateSelected m (fun e => { e with checked := true }) p.elems).map
          (fun e => (e.id, e.kind)) = es0.map (fun e => (e.id, e.kind)) := by
        exact (updateSelected_shape m (fun e => { e with checked := true })
          (fun _ => ⟨rfl, rfl⟩) p.elems).trans hshape
      have hnone : updateSelected m1 (fun e => { e with marked := true })
          (updateSelected m (fun e => { e with checked := true }) p.elems)
          = updateSelected m (fun e => { e with checked := true }) p.elems := by
        unfold updateSelected
        apply updateAt_none
        intro j hj
        rw [Nat.zero_add]
        exact hm1sel _ hshape1 j hj
      simp only [hnone]
      exact h1

theorem status_of_visible {p q : Page} (h : p.elems.map visible = q.elems.map visible) :
    checkStatus p = checkStatus q ∧ cardStatus p = cardStatus q := by
  have hc : ∀ es : List Elem,
      (es.filter (fun e => e.kind = .check)).map (fun e => (e.id, e.checked))
        = ((es.map visible).filter (fun e => e.kind = .check)).map (fun e => (e.id, e.checked)) := by
    intro es
    induction es with
    | nil => rfl
    | cons e es ih =>
        rcases e with ⟨id, kind, c, ch, m⟩
        cases kind <;> simp [List.filter_cons, visible, ih]
  have hd : ∀ es : List Elem,
      (es.filter (fun e => e.kind = .card)).map (fun e => (e.id, e.marked))
        = ((es.map visible).filter (fun e => e.kind = .card)).map (fun e => (e.id, e.marked)) := by
    intro es
    induction es with
    | nil => rfl
    | cons e es ih =>
        rcases e with ⟨id, kind, c, ch, m⟩
        cases kind <;> simp [List.filter_cons, visible, ih]
  unfold checkStatus cardStatus
  rw [hc p.elems, hc q.elems, hd p.elems, hd q.elems, h]
  exact ⟨rfl, rfl⟩

theorem loadSavedStateWith_parsed (E : String → Matched) (w : World) (raw : String)
    (state : JVal) (hs : w.storage = some raw) (hp : JSON.parse raw = .ok state) :
    loadSavedStateWith E w =
      match applySavedWith E (forInEntries state) w.page with
      | .ok p => .ok ((fun v : World =>
          { v with timers := v.timers ++ [(100, Callback.updateProgress)] }) { w with page := p })
      | .threw e p => .threw e { w with page := p }
      | .unmodelled => .unmodelled := by
  have hne : raw.data.isEmpty = false := by
    cases hd : raw.data with
    | nil =>
        have : raw = "" := by
          obtain ⟨cs⟩ := raw
          simp only at hd
          rw [hd]
        have hsyn : JSON.parse "" = .error .syntaxError := rfl
        rw [this, hsyn] at hp
        exact Except.noConfusion hp
    | cons c cs => rfl
  unfold loadSavedStateWith
  simp only [hs, hne, hp]
  rfl

theorem isFirst_visible (p : Elem → Bool) (hp : ∀ e, p (visible e) = p e) (es : List Elem)
    (i : Nat) : isFirst p (es.map visible) i = isFirst p es i := by
  induction es generalizing i with
  | nil => rfl
  | cons e es ih =>
      cases i with
      | zero => simp only [List.map_cons, isFirst, hp]
      | succ n => simp only [List.map_cons, isFirst, hp, ih]

theorem isFirst_true (p : Elem → Bool) (es : List Elem) (i : Nat)
    (h : isFirst p es i = true) : ∃ e, es.get? i = some e ∧ p e = true := by
  induction es generalizing i with
  | nil => simp [isFirst] at h
  | cons e es ih =>
      cases i with
      | zero => exact ⟨e, rfl, by simpa [isFirst] using h⟩
      | succ n =>
          simp only [isFirst, Bool.and_eq_true] at h
          obtain ⟨e1, he1, hp1⟩ := ih n h.2
          exact ⟨e1, by simpa using he1, hp1⟩

theorem updateAt_isFirst (sel : Nat → Bool) (p : Elem → Bool) (f : Elem → Elem) (k : Nat)
    (es : List Elem) (h : ∀ j, sel (k + j) = isFirst p es j) :
    updateAt sel f k es = updFirst p f es := by
  induction es generalizing k with
  | nil => rfl
  | cons e es ih =>
      have h0 : sel k = p e := by simpa [isFirst] using h 0
      simp only [updateAt, updFirst, h0]
      by_cases hpe : p e = true
      · simp only [hpe, if_true]
        rw [updateAt_none]
        intro j _
        have := h (j + 1)
        rw [← Nat.add_assoc, Nat.add_right_comm] at this
        simp only [this, isFirst, hpe, Bool.not_true, Bool.false_and]
      · have hih : updateAt sel f (k + 1) es = updFirst p f es := by
          apply ih (k + 1)
          intro j
          have := h (j + 1)
          rw [← Nat.add_assoc, Nat.add_right_comm] at this
          simp only [Bool.not_eq_true] at hpe
          simp only [this, isFirst, hpe, Bool.not_false, Bool.true_and]
        simp only [Bool.not_eq_true] at hpe
        simp only [hpe, Bool.false_eq_true, if_false, hih]

theorem updateAt_all (sel : Nat → Bool) (ids : List String) (f : Elem → Elem) (k : Nat)
    (es : List Elem)
    (h : ∀ j e, es.get? j = some e → sel (k + j) = decide (e.id ∈ ids)) :
    updateAt sel f k es = es.map (fun e => if e.id ∈ ids then f e else e) := by
  induction es generalizing k with
  | nil => rfl
  | cons e es ih =>
      have h0 : sel k = decide (e.id ∈ ids) := by simpa using h 0 e rfl
      have hih : updateAt sel f (k + 1) es = es.map (fun e => if e.id ∈ ids then f e else e) := by
        apply ih (k + 1)
        intro j e1 he1
        have := h (j + 1) e1 (by simpa using he1)
        rw [← Nat.add_assoc, Nat.add_right_comm] at this
        exact this
      simp only [updateAt, List.map_cons, h0, decide_eq_true_eq, hih]

theorem updateSelected_maskOf (sel : Selection) (f : Elem → Elem) (es : List Elem) :
    updateSelected (maskOf sel) f es = sel.update f es := by
  cases sel with
  | first id =>
      unfold updateSelected
      apply updateAt_isFirst
      intro j
      rw [Nat.zero_add]
      exact isFirst_visible _ (fun e => by simp only [visible_id]) es j
  | all ids =>
      unfold updateSelected
      apply updateAt_all
      intro j e he
      rw [Nat.zero_add]
      have hv : (es.map visible).get? j = some (visible e) := by
        rw [List.get?_eq_getElem?, List.getElem?_map, ← List.get?_eq_getElem?, he]
        rfl
      simp only [maskOf, hv, visible_id]

theorem applySavedWith_jqEngine (entries : List (String × Bool)) (p : Page) :
    applySavedWith jqEngine entries p =
      match applySaved entries p with
      | some q => .ok q
      | none => .unmodelled := by
  induction entries generalizing p with
  | nil => rfl
  | cons kv rest ih =>
      obtain ⟨k, v⟩ := kv
      simp only [applySavedWith, applySaved, jqEngine]
      cases jq ("#" ++ k) with
      | none => rfl
      | some checkbox =>
          simp only [updateSelected_maskOf]
          cases v with
          | false => simp only [Bool.false_eq_true, if_false]; exact ih _
          | true =>
              simp only [if_true]
              cases jq ("#card-" ++ k) with
              | none => rfl
              | some card =>
                  simp only [updateSelected_maskOf]
                  exact ih _

theorem loadSavedStateWith_jqEngine (w : World) :
    loadSavedStateWith jqEngine w = loadSavedState w := by
  unfold loadSavedStateWith loadSavedState
  simp only [applySavedWith_jqEngine]
  cases w.storage with
  | none => rfl
  | some raw =>
      simp only []
      split
      · rfl
      · cases JSON.parse raw with
        | error e => cases e <;> rfl
        | ok state =>
            simp only []
            cases applySaved (forInEntries state) w.page <;> rfl

theorem takesIdFastPath_jqEngine : TakesIdFastPath jqEngine := by
  intro k hne hplain
  unfold jqEngine
  rw [jq_plain k hne hplain]

theorem mem_of_shape {es es0 : List Elem}
    (hs : es.map (fun e => (e.id, e.kind)) = es0.map (fun e => (e.id, e.kind)))
    {i : Nat} {e : Elem} (he : es.get? i = some e) :
    ∃ e0 ∈ es0, e0.id = e.id ∧ e0.kind = e.kind := by
  have hm : (e.id, e.kind) ∈ es.map (fun e => (e.id, e.kind)) :=
    List.mem_map.mpr ⟨e, List.get?_mem he, rfl⟩
  rw [hs] at hm
  obtain ⟨e0, he0, heq⟩ := List.mem_map.mp hm
  simp only [Prod.mk.injEq] at heq
  exact ⟨e0, he0, heq.1, heq.2⟩

theorem plain_key_selects (E : String → Matched) (hE : TakesIdFastPath E) (key : String)
    (hne : key.data ≠ []) (hplain : key.data.all (fun d => isIdChar d.toNat) = true)
    (es0 : List Elem) (hno : ∀ e ∈ es0, e.kind = .check → e.id ≠ key)
    (hnocard : ∀ e ∈ es0, e.id ≠ "card-" ++ key) :
    SelectsNoCheckbox E ("#" ++ key) es0 ∧ SelectsNothing E ("#card-" ++ key) es0 := by
  constructor
  · refine ⟨_, hE key hne hplain, ?_⟩
    intro es hs i e he hsel
    simp only [maskOf] at hsel
    rw [isFirst_visible _ (fun e => by simp only [visible_id])] at hsel
    obtain ⟨e1, he1, hp1⟩ := isFirst_true _ _ _ hsel
    rw [he] at he1
    injection he1 with he1
    subst he1
    simp only [decide_eq_true_eq] at hp1
    obtain ⟨e0, he0, hid, hkind⟩ := mem_of_shape hs he
    cases hk : e.kind with
    | card => rfl
    | check => exact absurd (hid.trans hp1) (hno e0 he0 (hkind.trans hk))
  · have hne1 : ("card-" ++ key).data ≠ [] := by
      obtain ⟨cs⟩ := key
      exact List.cons_ne_nil _ _
    have hplain1 : ("card-" ++ key).data.all (fun d => isIdChar d.toNat) = true := by
      obtain ⟨cs⟩ := key
      have hd : ("card-" ++ (⟨cs⟩ : String)).data = 'c' :: 'a' :: 'r' :: 'd' :: '-' :: cs := rfl
      rw [hd]
      simp only [List.all_cons]
      simp only at hplain
      rw [hplain]
      decide
    have hsel := hE ("card-" ++ key) hne1 hplain1
    rw [← String.append_assoc] at hsel
    refine ⟨_, hsel, ?_⟩
    intro es hs i hi
    cases hm : maskOf (.first ("card-" ++ key)) (es.map visible) i with
    | false => rfl
    | true =>
        simp only [maskOf] at hm
        rw [isFirst_visible _ (fun e => by simp only [visible_id])] at hm
        obtain ⟨e1, he1, hp1⟩ := isFirst_true _ _ _ hm
        simp only [decide_eq_true_eq] at hp1
        obtain ⟨e0, he0, hid, -⟩ := mem_of_shape hs he1
        exact absurd (hid.trans hp1) (hnocard e0 he0)

theorem applySavedWith_step (E : String → Matched) (key : String) (value : Bool)
    (es0 : List Elem) (p : Page)
    (hshape : p.elems.map (fun e => (e.id, e.kind)) = es0.map (fun e => (e.id, e.kind)))
    (hsel : SelectsNoCheckbox E ("#" ++ key) es0)
    (hcard : value = true → SelectsNothing E ("#card-" ++ key) es0) :
    ∃ p1, applySavedWith E [(key, value)] p = .ok p1 ∧
      p1.elems.map visible = p.elems.map visible ∧
      { p1 with elems := p.elems } = p ∧
      ∀ rest, applySavedWith E ((key, value) :: rest) p = applySavedWith E rest p1 := by
  obtain ⟨m, hm, hmsel⟩ := hsel
  have h1 : (updateSelected m (fun e => { e with checked := value }) p.elems).map visible
      = p.elems.map visible := by
    unfold updateSelected
    apply updateAt_only_cards
    intro j e he hs
    rw [Nat.zero_add] at hs
    exact hmsel p.elems hshape j e he hs
  refine ⟨{ p with elems := updateSelected m (fun e => { e with checked := value }) p.elems },
    ?_, h1, rfl, ?_⟩
  · cases value with
    | false => simp only [applySavedWith, hm, Bool.false_eq_true, if_false]
    | true =>
        obtain ⟨m1, hm1, hm1sel⟩ := hcard rfl
        have hshape1 : (updateSelected m (fun e => { e with checked := true }) p.elems).map
            (fun e => (e.id, e.kind)) = es0.map (fun e => (e.id, e.kind)) :=
          (updateSelected_shape m (fun e => { e with checked := true })
            (fun _ => ⟨rfl, rfl⟩) p.elems).trans hshape
        have hnone : updateSelected m1 (fun e => { e with marked := true })
            (updateSelected m (fun e => { e with checked := true }) p.elems)
            = updateSelected m (fun e => { e with checked := true }) p.elems := by
          unfold updateSelected
          apply updateAt_none
          intro j hj
          rw [Nat.zero_add]
          exact hm1sel _ hshape1 j hj
        simp only [applySavedWith, hm, hm1, if_true, hnone]
  · intro rest
    cases value with
    | false => simp only [applySavedWith, hm, Bool.false_eq_true, if_false]
    | true =>
        obtain ⟨m1, hm1, hm1sel⟩ := hcard rfl
        have hshape1 : (updateSelected m (fun e => { e with checked := true }) p.elems).map
            (fun e => (e.id, e.kind)) = es0.map (fun e => (e.id, e.kind)) :=
          (updateSelected_shape m (fun e => { e with checked := true })
            (fun _ => ⟨rfl, rfl⟩) p.elems).trans hshape
        have hnone : updateSelected m1 (fun e => { e with marked := true })
            (updateSelected m (fun e => { e with checked := true }) p.elems)
            = updateSelected m (fun e => { e with checked := true }) p.elems := by
          unfold updateSelected
          apply updateAt_none
          intro j hj
          rw [Nat.zero_add]
          exact hm1sel _ hshape1 j hj
        simp only [applySavedWith, hm, hm1, if_true, hnone]

theorem applySavedWith_modelled (E : String → Matched) (hE : ∀ s, E s ≠ .outside)
    (entries : List (String × Bool)) (p : Page) :
    applySavedWith E entries p ≠ .unmodelled := by
  induction entries generalizing p with
  | nil => simp [applySavedWith]
  | cons kv rest ih =>
      obtain ⟨k, v⟩ := kv
      simp only [applySavedWith]
      cases h1 : E ("#" ++ k) with
      | rejected => simp
      | outside => exact absurd h1 (hE _)
      | elements m =>
          simp only []
          cases v with
          | false => simp only [Bool.false_eq_true, if_false]; exact ih _
          | true =>
              simp only [if_true]
              cases h2 : E ("#card-" ++ k) with
              | rejected => simp
              | outside => exact absurd h2 (hE _)
              | elements m1 => simp only []; exact ih _

theorem loadSavedStateWith_modelled (E : String → Matched) (hE : ∀ s, E s ≠ .outside)
    (w : World) (raw : String) (state : JVal)
    (hs : w.storage = some raw) (hp : JSON.parse raw = .ok state) :
    loadSavedStateWith E w ≠ .unmodelled := by
  rw [loadSavedStateWith_parsed E w raw state hs hp]
  have := applySavedWith_modelled E hE (forInEntries state) w.page
  cases h : applySavedWith E (forInEntries state) w.page with
  | ok p => simp
  | threw e p => simp
  | unmodelled => exact absurd h this

theorem statusOf_loadSavedStateWith_ignored (E : String → Matched) (w w1 : World)
    (raw raw1 : String) (state state1 : JVal) (before after : List (String × Bool))
    (key : String) (value : Bool)
    (hpage : w1.page = w.page)
    (hs : w.storage = some raw) (hs1 : w1.storage = some raw1)
    (hp : JSON.parse raw = .ok state) (hp1 : JSON.parse raw1 = .ok state1)
    (he : forInEntries state = before ++ (key, value) :: after)
    (he1 : forInEntries state1 = before ++ after)
    (hsel : SelectsNoCheckbox E ("#" ++ key) w.page.elems)
    (hcard : value = true → SelectsNothing E ("#card-" ++ key) w.page.elems) :
    statusOf (loadSavedStateWith E w) = statusOf (loadSavedStateWith E w1) := by
  rw [loadSavedStateWith_parsed E w raw state hs hp,
    loadSavedStateWith_parsed E w1 raw1 state1 hs1 hp1, he, he1, hpage,
    applySavedWith_append, applySavedWith_append]
  cases h1 : applySavedWith E before w.page with
  | ok p =>
      simp only []
      have hshape : p.elems.map (fun e => (e.id, e.kind))
          = w.page.elems.map (fun e => (e.id, e.kind)) := by
        apply applySavedWith_shape E before w.page p
        rw [h1]
        rfl
      have hv := applySavedWith_ignored E key value after w.page.elems p hshape hsel hcard
      cases h2 : applySavedWith E ((key, value) :: after) p with
      | ok q =>
          rw [h2] at hv
          cases h3 : applySavedWith E after p with
          | ok q1 =>
              rw [h3] at hv
              simp only [visibleOf, Outcome.ok.injEq] at hv
              have := status_of_visible hv
              simp only [statusOf, this.1, this.2]
          | threw e1 q1 => rw [h3] at hv; simp [visibleOf] at hv
          | unmodelled => rw [h3] at hv; simp [visibleOf] at hv
      | threw e q =>
          rw [h2] at hv
          cases h3 : applySavedWith E after p with
          | ok q1 => rw [h3] at hv; simp [visibleOf] at hv
          | threw e1 q1 =>
              rw [h3] at hv
              simp only [visibleOf, Outcome.threw.injEq] at hv
              have := status_of_visible hv.2
              simp only [statusOf, this.1, this.2, hv.1]
          | unmodelled => rw [h3] at hv; simp [visibleOf] at hv
      | unmodelled =>
          rw [h2] at hv
          cases h3 : applySavedWith E after p with
          | ok q1 => rw [h3] at hv; simp [visibleOf] at hv
          | threw e1 q1 => rw [h3] at hv; simp [visibleOf] at hv
          | unmodelled => rfl
  | threw e p => rfl
  | unmodelled => rfl

/-- C9 as amended: a stored key is ignored by `loadSavedState` when jQuery
accepts the selector `'#' + key` and it selects no rendered checkbox and, for
a truthy stored value, jQuery accepts `'#card-' + key` and it selects no rendered
checkbox or card (in whatever state the rendered items are).  For every
selector engine `E` in the place of `$`: (1) the checkbox and card status
`loadSavedState` ends with, and whether it ends normally, are the same as for
the stored state without that key; with an engine that answers every selector
the run is inside the model; and the iteration for that key alone, from any
state of the page, ends normally, changes nothing a selector or the status can
see and nothing else of the page, and hands over to the remaining keys.
(2) With an engine that takes jQuery's id fast path, every non-empty key of
letters, digits, `_` and `-` such that no rendered checkbox has the id `key`
and no rendered element the id `card-<key>` is such a key.  (3) The engine
`jqEngine` takes the id fast path, and (4) with it the function is
`loadSavedState` as modelled above.  (5) A key whose selector `'#' + key` the
engine rejects ends the loop with jQuery's error. -/
theorem loadSavedState_ignores_unknown_key :
    (∀ (E : String → Matched) (w w1 : World) (raw raw1 : String) (state state1 : JVal)
        (before after : List (String × Bool)) (key : String) (value : Bool),
        w1.page = w.page →
        w.storage = some raw → w1.storage = some raw1 →
        JSON.parse raw = .ok state → JSON.parse raw1 = .ok state1 →
        forInEntries state = before ++ (key, value) :: after →
        forInEntries state1 = before ++ after →
        SelectsNoCheckbox E ("#" ++ key) w.page.elems →
        (value = true → SelectsNothing E ("#card-" ++ key) w.page.elems) →
        statusOf (loadSavedStateWith E w) = statusOf (loadSavedStateWith E w1) ∧
        ((∃ r, loadSavedStateWith E w1 = .ok r) → ∃ r, loadSavedStateWith E w = .ok r) ∧
        ((∀ s, E s ≠ .outside) → loadSavedStateWith E w ≠ .unmodelled) ∧
        (∀ p : Page,
          p.elems.map (fun e => (e.id, e.kind)) = w.page.elems.map (fun e => (e.id, e.kind)) →
          ∃ p1, applySavedWith E [(key, value)] p = .ok p1 ∧
            p1.elems.map visible = p.elems.map visible ∧
            checkStatus p1 = checkStatus p ∧ cardStatus p1 = cardStatus p ∧
            { p1 with elems := p.elems } = p ∧
            ∀ rest, applySavedWith E ((key, value) :: rest) p = applySavedWith E rest p1)) ∧
    (∀ (E : String → Matched) (key : String) (es0 : List Elem),
        TakesIdFastPath E →
        key.data ≠ [] → key.data.all (fun d => isIdChar d.toNat) = true →
        (∀ e ∈ es0, e.kind = .check → e.id ≠ key) →
        (∀ e ∈ es0, e.id ≠ "card-" ++ key) →
        SelectsNoCheckbox E ("#" ++ key) es0 ∧ SelectsNothing E ("#card-" ++ key) es0) ∧
    TakesIdFastPath jqEngine ∧
    (∀ w : World, loadSavedStateWith jqEngine w = loadSavedState w) ∧
    (∀ (E : String → Matched) (key : String) (value : Bool) (rest : List (String × Bool))
        (p : Page),
        E ("#" ++ key) = .rejected →
        applySavedWith E ((key, value) :: rest) p = .threw .selectorError p) := by
  refine ⟨?_, ?_, takesIdFastPath_jqEngine, loadSavedStateWith_jqEngine, ?_⟩
  · intro E w w1 raw raw1 state state1 before after key value hpage hs hs1 hp hp1 he he1
      hsel hcard
    have key_eq := statusOf_loadSavedStateWith_ignored E w w1 raw raw1 state state1 before after
      key value hpage hs hs1 hp hp1 he he1 hsel hcard
    refine ⟨key_eq, ?_, ?_, ?_⟩
    · rintro ⟨r, hr⟩
      rw [hr] at key_eq
      cases hl : loadSavedStateWith E w with
      | ok r1 => exact ⟨r1, rfl⟩
      | threw e r1 => rw [hl] at key_eq; simp [statusOf] at key_eq
      | unmodelled => rw [hl] at key_eq; simp [statusOf] at key_eq
    · intro hE
      exact loadSavedStateWith_modelled E hE w raw state hs hp
    · intro p hshape
      obtain ⟨p1, h1, h2, h3, h4⟩ :=
        applySavedWith_step E key value w.page.elems p hshape hsel hcard
      have hst := status_of_visible h2
      exact ⟨p1, h1, h2, hst.1, hst.2, h3, h4⟩
  · intro E key es0 hE hne hplain hno hnocard
    exact plain_key_selects E hE key hne hplain es0 hno hnocard
  · intro E key value rest p h
    simp only [applySavedWith, h]

/-- Witness for C9 as amended: the key `old-practice` of an earlier catalog
next to the key `https`, with the engine `jqEngine`, that is, for
`loadSavedState` itself; and the same key next to the key `naïve`, with an
engine that also answers the two selectors `#naïve` and `#card-naïve`, which
select nothing. -/
theorem loadSavedState_ignores_unknown_key_witness :
    (statusOf (loadSavedState (renderBestPractices
        (initialWorld (some "\x7b\"https\":true,\"old-practice\":true\x7d"))))
      = statusOf (loadSavedState (renderBestPractices
        (initialWorld (some "\x7b\"https\":true\x7d")))) ∧
     ∃ r, loadSavedState (renderBestPractices
        (initialWorld (some "\x7b\"https\":true,\"old-practice\":true\x7d"))) = .ok r) ∧
    (statusOf (loadSavedStateWith (selectingNothing ["#naïve", "#card-naïve"] jqEngine)
        (renderBestPractices
          (initialWorld (some "\x7b\"naïve\":true,\"old-practice\":true\x7d"))))
      = statusOf (loadSavedStateWith (selectingNothing ["#naïve", "#card-naïve"] jqEngine)
        (renderBestPractices (initialWorld (some "\x7b\"naïve\":true\x7d")))) ∧
     ∃ r, loadSavedStateWith (selectingNothing ["#naïve", "#card-naïve"] jqEngine)
        (renderBestPractices
          (initialWorld (some "\x7b\"naïve\":true,\"old-practice\":true\x7d"))) = .ok r) := by
  have hfast : TakesIdFastPath (selectingNothing ["#naïve", "#card-naïve"] jqEngine) := by
    intro k hne hplain
    have hk := loadSavedState_ignores_unknown_key.2.2.1 k hne hplain
    have h1 : "#" ++ k ∉ ["#naïve", "#card-naïve"] := by
      intro hmem
      simp only [List.mem_cons, List.mem_singleton, List.not_mem_nil, or_false] at hmem
      rcases hmem with h | h
      · have : k = "naïve" := by
          obtain ⟨cs⟩ := k
          have := congrArg String.data h
          simp only [String.data_append] at this
          injection this with _ this
          exact congrArg String.mk this
        subst this
        revert hplain
        decide
      · have : k = "card-naïve" := by
          obtain ⟨cs⟩ := k
          have := congrArg String.data h
          simp only [String.data_append] at this
          injection this with _ this
          exact congrArg String.mk this
        subst this
        revert hplain
        decide
    simp only [selectingNothing, h1, if_false, hk]
  constructor
  · have hsel := loadSavedState_ignores_unknown_key.2.1 jqEngine "old-practice"
      (renderBestPractices (initialWorld none)).page.elems
      loadSavedState_ignores_unknown_key.2.2.1 (by decide) (by decide) (by decide) (by decide)
    have main := loadSavedState_ignores_unknown_key.1 jqEngine
      (renderBestPractices (initialWorld (some "\x7b\"https\":true,\"old-practice\":true\x7d")))
      (renderBestPractices (initialWorld (some "\x7b\"https\":true\x7d")))
      "\x7b\"https\":true,\"old-practice\":true\x7d" "\x7b\"https\":true\x7d"
      (.obj (.cons "https" (.bool true) (.cons "old-practice" (.bool true) .nil)))
      (.obj (.cons "https" (.bool true) .nil))
      [("https", true)] [] "old-practice" true
      rfl rfl rfl rfl rfl rfl rfl hsel.1 (fun _ => hsel.2)
    simp only [loadSavedState_ignores_unknown_key.2.2.2.1] at main
    exact ⟨main.1, main.2.1 ⟨_, rfl⟩⟩
  · have hsel := loadSavedState_ignores_unknown_key.2.1
      (selectingNothing ["#naïve", "#card-naïve"] jqEngine) "old-practice"
      (renderBestPractices
        (initialWorld (some "\x7b\"naïve\":true,\"old-practice\":true\x7d"))).page.elems
      hfast (by decide) (by decide) (by decide) (by decide)
    have main := loadSavedState_ignores_unknown_key.1
      (selectingNothing ["#naïve", "#card-naïve"] jqEngine)
      (renderBestPractices (initialWorld (some "\x7b\"naïve\":true,\"old-practice\":true\x7d")))
      (renderBestPractices (initialWorld (some "\x7b\"naïve\":true\x7d")))
      "\x7b\"naïve\":true,\"old-practice\":true\x7d" "\x7b\"naïve\":true\x7d"
      (.obj (.cons "naïve" (.bool true) (.cons "old-practice" (.bool true) .nil)))
      (.obj (.cons "naïve" (.bool true) .nil))
      [("naïve", true)] [] "old-practice" true
      rfl rfl rfl rfl rfl rfl rfl hsel.1 (fun _ => hsel.2)
    exact ⟨main.1, main.2.1 ⟨_, rfl⟩⟩

theorem checkedPage_none :
    checkedPage (fun _ => false) = (renderBestPractices (initialWorld none)).page.elems := by
  decide

theorem checkedPage_reached_by_clicks :
    ∃ w1, clicks [1, 29] (renderBestPractices (initialWorld none)) = .ok w1 ∧
      w1.page.elems = checkedPage (fun id => id = "semantic-html" || id = "https") := by
  refine ⟨_, rfl, ?_⟩
  decide

theorem savedEntries_checkedPage (a : String → Bool) :
    ((checkedPage a).filter (fun e => e.kind = .check)).foldl
      (fun state e => assign state e.id e.checked) []
      = bestPractices.map (fun p => (p.id, a p.id)) := by
  simp [checkedPage, checkedCard, bestPractices, assign, setProp]

theorem updFirst_id (p : Elem → Bool) (f : Elem → Elem) (hf : ∀ e, f e = e) (es : List Elem) :
    updFirst p f es = es := by
  induction es with
  | nil => rfl
  | cons e es ih =>
      simp only [updFirst, hf, ih]
      split <;> rfl

theorem applySaved_plain (k : String) (v : Bool) (rest : List (String × Bool)) (p : Page)
    (hne : k.data ≠ []) (hplain : k.data.all (fun d => isIdChar d.toNat) = true) :
    applySaved ((k, v) :: rest) p =
      applySaved rest
        { p with
          elems := updFirst (fun e => e.id = "card-" ++ k)
                     (fun e => { e with marked := e.marked || v })
                     (updFirst (fun e => e.id = k) (fun e => { e with checked := v }) p.elems) } := by
  simp only [applySaved, jq_plain k hne hplain, jq_card_plain k hplain, Selection.update]
  cases v with
  | false =>
      simp only [Bool.false_eq_true, if_false, Bool.or_false]
      rw [updFirst_id _ (fun e => e) (fun _ => rfl)]
  | true => simp only [if_true, Bool.or_true]

theorem updFirst_append_of_not (p : Elem → Bool) (f : Elem → Elem) (A B : List Elem)
    (hA : ∀ e ∈ A, p e = false) : updFirst p f (A ++ B) = A ++ updFirst p f B := by
  induction A with
  | nil => rfl
  | cons e A ih =>
      have he : p e = false := hA e (List.mem_cons_self _ _)
      simp only [List.cons_append, updFirst, he, Bool.false_eq_true, if_false]
      exact congrArg (fun l => e :: l) (ih (fun e1 h1 => hA e1 (List.mem_cons_of_mem _ h1)))

theorem card_append_inj {x y : String} (h : "card-" ++ x = "card-" ++ y) : x = y := by
  obtain ⟨xs⟩ := x
  obtain ⟨ys⟩ := y
  have h2 := congrArg String.data h
  simp only [String.data_append, List.append_cancel_left_eq] at h2
  rw [h2]

theorem mem_checkedCards {a : String → Bool} {ps : List Practice} {e : Elem}
    (he : e ∈ (ps.map (checkedCard a)).flatten) :
    ∃ p ∈ ps, e.id = p.id ∨ e.id = "card-" ++ p.id := by
  simp only [List.mem_flatten, List.mem_map] at he
  obtain ⟨l, ⟨p, hp, rfl⟩, hel⟩ := he
  refine ⟨p, hp, ?_⟩
  simp only [checkedCard, List.mem_cons, List.mem_singleton, List.not_mem_nil, or_false] at hel
  rcases hel with rfl | rfl
  · exact Or.inr rfl
  · exact Or.inl rfl

theorem applySaved_checkedCards (a : String → Bool) (pg : Page) (done todo : List Practice)
    (hgood : GoodIds (done ++ todo))
    (hp : pg.elems = (done.map (checkedCard a)).flatten
      ++ (todo.map (checkedCard (fun _ => false))).flatten) :
    applySaved (todo.map (fun q => (q.id, a q.id))) pg
      = some { pg with elems := ((done ++ todo).map (checkedCard a)).flatten } := by
  induction todo generalizing done pg with
  | nil =>
      simp only [List.map_nil, applySaved, List.append_nil, List.flatten_nil] at hp ⊢
      rw [← hp]
  | cons q t ih =>
      obtain ⟨hnd, hcard, hplain⟩ := hgood
      have hq : q ∈ done ++ q :: t := by simp
      have hdone : ∀ p ∈ done, p.id ≠ q.id := by
        intro p hp1 heq
        rw [List.map_append, List.map_cons, List.nodup_append] at hnd
        exact hnd.2.2 (List.mem_map.mpr ⟨p, hp1, rfl⟩) (by rw [heq]; exact List.mem_cons_self _ _)
      have hA1 : ∀ e ∈ (done.map (checkedCard a)).flatten,
          (decide (e.id = q.id)) = false := by
        intro e he
        obtain ⟨p, hp1, h | h⟩ := mem_checkedCards he
        · simp only [decide_eq_false_iff_not, h]; exact hdone p hp1
        · simp only [decide_eq_false_iff_not, h]
          exact fun h2 => hcard q hq p (by simp [hp1]) h2.symm
      have hA2 : ∀ e ∈ (done.map (checkedCard a)).flatten,
          (decide (e.id = "card-" ++ q.id)) = false := by
        intro e he
        obtain ⟨p, hp1, h | h⟩ := mem_checkedCards he
        · simp only [decide_eq_false_iff_not, h]
          exact hcard p (by simp [hp1]) q hq
        · simp only [decide_eq_false_iff_not, h]
          exact fun h2 => hdone p hp1 (card_append_inj h2)
      have hself : ¬ ("card-" ++ q.id = q.id) := fun h => hcard q hq q hq h.symm
      rw [List.map_cons, applySaved_plain _ _ _ _ (hplain q hq).1 (hplain q hq).2]
      have hgood1 : GoodIds ((done ++ [q]) ++ t) := by
        rw [List.append_assoc]
        exact ⟨hnd, hcard, hplain⟩
      have := ih { pg with elems := ((done ++ [q]).map (checkedCard a)).flatten
          ++ (t.map (checkedCard (fun _ => false))).flatten } (done ++ [q]) hgood1 rfl
      rw [List.append_assoc, List.singleton_append] at this
      simp only [] at this
      rw [← this]
      congr 1
      rw [hp]
      simp only [List.map_cons, List.flatten_cons, List.map_append, List.flatten_append,
        List.map_nil, List.flatten_nil, List.append_nil, List.append_assoc]
      rw [updFirst_append_of_not _ _ _ _ hA1]
      simp only [checkedCard, List.cons_append, List.nil_append, updFirst, hself, decide_False,
        Bool.false_eq_true, if_false, decide_True, if_true]
      rw [updFirst_append_of_not _ _ _ _ hA2]
      simp only [updFirst, decide_True, if_true, Bool.false_or]
      rfl

theorem goodIds_bestPractices : GoodIds bestPractices := by decide

theorem applySaved_checkedPage (a : String → Bool) (p : Page)
    (hp : p.elems = (renderBestPractices (initialWorld none)).page.elems) :
    applySaved (bestPractices.map (fun q => (q.id, a q.id))) p
      = some { p with elems := checkedPage a } := by
  have h := applySaved_checkedCards a p [] bestPractices goodIds_bestPractices
    (by rw [hp, ← checkedPage_none]; rfl)
  simpa only [List.nil_append] using h

theorem plainChars_of_idChars (cs : List Char)
    (h : cs.all (fun d => isIdChar d.toNat) = true) : PlainChars cs := by
  intro c hc
  have h1 := List.all_eq_true.mp h c hc
  simp only [isIdChar, isDigit, Bool.or_eq_true, Bool.and_eq_true, decide_eq_true_eq] at h1
  omega

theorem quoteChars_plain (cs : List Char) (h : PlainChars cs) : quoteChars cs = cs := by
  induction cs with
  | nil => rfl
  | cons c cs ih =>
      obtain ⟨h1, h2, h3⟩ := h c (List.mem_cons_self _ _)
      have hq : quoteChar c = [c] := by
        unfold quoteChar
        rw [if_neg h1, if_neg h2, if_neg (by omega), if_neg (by omega), if_neg (by omega),
          if_neg (by omega), if_neg (by omega), if_neg (by omega)]
      rw [quoteChars, hq, ih (fun d hd => h d (List.mem_cons_of_mem _ hd))]
      rfl

theorem run_append (st : PState) (cs ds : List Char) :
    run st (cs ++ ds) =
      match run st cs with
      | .ok st1 => run st1 ds
      | .error e => .error e := by
  induction cs generalizing st with
  | nil => rfl
  | cons c cs ih =>
      simp only [List.cons_append, run]
      cases step st c with
      | ok st1 => exact ih st1
      | error e => rfl

theorem run_str_plain (stack : List Frame) (isKey : Bool) (acc cs : List Char)
    (h : PlainChars cs) :
    run ⟨stack, .str isKey acc none, none⟩ cs
      = .ok ⟨stack, .str isKey (cs.reverse ++ acc) none, none⟩ := by
  induction cs generalizing acc with
  | nil => rfl
  | cons c cs ih =>
      obtain ⟨h1, h2, h3⟩ := h c (List.mem_cons_self _ _)
      have hs : step ⟨stack, .str isKey acc none, none⟩ c
          = .ok ⟨stack, .str isKey (c :: acc) none, none⟩ := by
        simp only [step]
        rw [if_neg h1, if_neg h2, if_neg (by omega)]
      simp only [run, hs]
      rw [ih (c :: acc) (fun d hd => h d (List.mem_cons_of_mem _ hd))]
      simp

theorem run_member (ms : List (String × JVal)) (k0 : String) (rest : List Frame)
    (first : Bool) (k : String) (b : Bool) (h : PlainChars k.data) :
    run ⟨.obj ms k0 :: rest, if first then .objStart else .key, none⟩ (stringifyMember (k, b))
      = .ok ⟨.obj ((k, .bool b) :: ms) k :: rest, .after, none⟩ := by
  unfold stringifyMember
  simp only [quoteChars_plain k.data h]
  have h0 : step ⟨.obj ms k0 :: rest, if first then .objStart else .key, none⟩ (Char.ofNat 34)
      = .ok ⟨.obj ms k0 :: rest, .str true [] none, none⟩ := by
    cases first <;> rfl
  rw [run, h0]
  simp only []
  rw [run_append, run_str_plain _ _ _ _ h]
  simp only [List.append_nil]
  have hk : String.mk k.data.reverse.reverse = k := by
    rw [List.reverse_reverse]
  cases b with
  | true =>
      show run ⟨.obj ms k0 :: rest, .str true k.data.reverse none, none⟩
        [Char.ofNat 34, ':', 't', 'r', 'u', 'e'] = _
      have : run ⟨.obj ms k0 :: rest, .str true k.data.reverse none, none⟩
          [Char.ofNat 34, ':', 't', 'r', 'u', 'e']
          = .ok ⟨.obj ((String.mk k.data.reverse.reverse, .bool true) :: ms)
              (String.mk k.data.reverse.reverse) :: rest, .after, none⟩ := rfl
      rw [this, hk]
  | false =>
      show run ⟨.obj ms k0 :: rest, .str true k.data.reverse none, none⟩
        [Char.ofNat 34, ':', 'f', 'a', 'l', 's', 'e'] = _
      have : run ⟨.obj ms k0 :: rest, .str true k.data.reverse none, none⟩
          [Char.ofNat 34, ':', 'f', 'a', 'l', 's', 'e']
          = .ok ⟨.obj ((String.mk k.data.reverse.reverse, .bool false) :: ms)
              (String.mk k.data.reverse.reverse) :: rest, .after, none⟩ := rfl
      rw [this, hk]

theorem run_members (st : List (String × Bool)) (hst : st ≠ [])
    (hplain : ∀ m ∈ st, PlainChars m.1.data) (ms : List (String × JVal)) (k0 : String)
    (first : Bool) :
    ∃ k1, run ⟨[.obj ms k0], if first then .objStart else .key, none⟩ (stringifyMembers st)
      = .ok ⟨[.obj ((st.map (fun m => (m.1, JVal.bool m.2))).reverse ++ ms) k1], .after, none⟩ := by
  induction st generalizing ms k0 first with
  | nil => exact absurd rfl hst
  | cons m rest ih =>
      obtain ⟨k, b⟩ := m
      have hm := run_member ms k0 [] first k b (hplain (k, b) (List.mem_cons_self _ _))
      cases rest with
      | nil =>
          exact ⟨k, by simpa [stringifyMembers] using hm⟩
      | cons m2 rest2 =>
          obtain ⟨k1, h1⟩ := ih (by simp) (fun d hd => hplain d (List.mem_cons_of_mem _ hd))
            ((k, .bool b) :: ms) k false
          refine ⟨k1, ?_⟩
          rw [stringifyMembers, run_append, hm]
          simp only []
          have hcomma : step ⟨[.obj ((k, .bool b) :: ms) k], .after, none⟩ ','
              = .ok ⟨[.obj ((k, .bool b) :: ms) k], .key, none⟩ := rfl
          rw [run, hcomma]
          simp only [Bool.false_eq_true, if_false] at h1
          simp only [h1, List.map_cons, List.reverse_cons, List.append_assoc, List.singleton_append]
          rfl

theorem foldl_setProp_fresh {α : Type} (l acc : List (String × α))
    (hnd : (acc.map (fun m => m.1) ++ l.map (fun m => m.1)).Nodup) :
    l.foldl (fun o m => setProp o m.1 m.2) acc = acc ++ l := by
  induction l generalizing acc with
  | nil => simp
  | cons m rest ih =>
      have hfresh : ∀ acc1 : List (String × α), m.1 ∉ acc1.map (fun x => x.1) →
          setProp acc1 m.1 m.2 = acc1 ++ [m] := by
        intro acc1
        induction acc1 with
        | nil => intro _; rfl
        | cons x xs ihx =>
            intro hx
            simp only [List.map_cons, List.mem_cons, not_or] at hx
            simp only [setProp, List.cons_append]
            rw [if_neg (fun h => hx.1 h.symm), ihx hx.2]
      have hm : m.1 ∉ acc.map (fun x => x.1) := by
        intro hmem
        rw [List.nodup_append] at hnd
        exact hnd.2.2 hmem (by simp)
      rw [List.foldl_cons, hfresh acc hm, ih]
      · simp
      · simpa [List.map_append, List.append_assoc] using hnd

theorem mkObject_nodup (l : List (String × JVal)) (hnd : (l.map (fun m => m.1)).Nodup) :
    mkObject l = .obj (JMembers.ofList l) := by
  unfold mkObject
  rw [foldl_setProp_fresh l [] (by simpa using hnd)]
  rfl

theorem JMembers.toList_ofList (l : List (String × JVal)) :
    (JMembers.ofList l).toList = l := by
  induction l with
  | nil => rfl
  | cons m rest ih =>
      obtain ⟨k, v⟩ := m
      simp only [JMembers.ofList, JMembers.toList, ih]

theorem ownProps_no_index {α : Type} (l : List (String × α))
    (h : ∀ m ∈ l, arrayIndex m.1 = none) : ownProps l = l := by
  have h1 : indexedProps l = [] := by
    induction l with
    | nil => rfl
    | cons m rest ih =>
        obtain ⟨k, v⟩ := m
        have hk : arrayIndex k = none := h (k, v) (List.mem_cons_self _ _)
        simp only [indexedProps, hk]
        exact ih (fun d hd => h d (List.mem_cons_of_mem _ hd))
  have h2 : l.filter (fun p => (arrayIndex p.1).isNone) = l := by
    rw [List.filter_eq_self]
    intro m hm
    rw [h m hm]
    rfl
  unfold ownProps
  rw [h1, h2]
  rfl

theorem parse_stringify (st : List (String × Bool)) (h : PlainState st) :
    JSON.parse (JSON.stringify st)
      = .ok (.obj (JMembers.ofList (st.map (fun m => (m.1, JVal.bool m.2))))) := by
  obtain ⟨hnd, hidx, hplain⟩ := h
  have hnd1 : ((st.map (fun m => (m.1, JVal.bool m.2))).map (fun m => m.1)).Nodup := by
    simpa [List.map_map, Function.comp] using hnd
  unfold JSON.parse JSON.stringify
  rw [ownProps_no_index st hidx]
  simp only [run]
  have h0 : step ⟨[], .value, none⟩ (Char.ofNat 123) = .ok ⟨[.obj [] ""], .objStart, none⟩ := rfl
  rw [h0]
  simp only []
  cases hst : st with
  | nil =>
      rfl
  | cons m rest =>
      rw [← hst, run_append]
      obtain ⟨k1, h1⟩ := run_members st (by rw [hst]; simp) hplain [] "" true
      simp only [if_true] at h1
      rw [h1]
      simp only [List.append_nil]
      have hclose : run ⟨[.obj (st.map (fun m => (m.1, JVal.bool m.2))).reverse k1], .after, none⟩
          [Char.ofNat 125]
          = .ok ⟨[], .after, some (mkObject (st.map (fun m => (m.1, JVal.bool m.2))).reverse.reverse)⟩ :=
        rfl
      rw [hclose]
      simp only [finish, List.reverse_reverse]
      rw [mkObject_nodup _ hnd1]

theorem forInEntries_stored (st : List (String × Bool)) (h : PlainState st) :
    forInEntries (.obj (JMembers.ofList (st.map (fun m => (m.1, JVal.bool m.2))))) = st := by
  obtain ⟨hnd, hidx, hplain⟩ := h
  simp only [forInEntries, JMembers.toList_ofList]
  rw [ownProps_no_index]
  · simp only [List.map_map]
    conv_rhs => rw [← List.map_id st]
    apply List.map_congr_left
    intro m _
    rfl
  · intro m hm
    obtain ⟨m0, hm0, rfl⟩ := List.mem_map.mp hm
    exact hidx m0 hm0

theorem plainState_bestPractices (a : String → Bool) :
    PlainState (bestPractices.map (fun p => (p.id, a p.id))) := by
  refine ⟨?_, ?_, ?_⟩
  · rw [List.map_map]
    exact goodIds_bestPractices.1
  · intro m hm
    obtain ⟨p, hp, rfl⟩ := List.mem_map.mp hm
    have : ∀ q ∈ bestPractices, arrayIndex q.id = none := by decide
    exact this p hp
  · intro m hm
    obtain ⟨p, hp, rfl⟩ := List.mem_map.mp hm
    exact plainChars_of_idChars _ (goodIds_bestPractices.2.2 p hp).2

theorem checkStatus_checkedPage (a : String → Bool) (p : Page) (hp : p.elems = checkedPage a) :
    checkStatus p = bestPractices.map (fun q => (q.id, a q.id)) := by
  unfold checkStatus
  rw [hp]
  simp [checkedPage, checkedCard, bestPractices]

theorem cardStatus_checkedPage (a : String → Bool) (p : Page) (hp : p.elems = checkedPage a) :
    cardStatus p = bestPractices.map (fun q => ("card-" ++ q.id, a q.id)) := by
  unfold cardStatus
  rw [hp]
  simp [checkedPage, checkedCard, bestPractices]

/-- C4: round trip.  For every assignment `a` of checked and unchecked to the
items of the catalog, `saveState` on the page that shows it, followed by
`loadSavedState` on a fresh render (all unchecked, no card marked), ends
normally and gives every checkbox the status and every card the mark it had
when saved. -/
theorem saveState_loadSavedState_roundtrip (a : String → Bool) (w : World) :
    ∃ w1,
      loadSavedState (renderBestPractices
        (saveState { w with page := { w.page with elems := checkedPage a } })) = .ok w1 ∧
      w1.page.elems = checkedPage a ∧
      checkStatus w1.page = bestPractices.map (fun q => (q.id, a q.id)) ∧
      cardStatus w1.page = bestPractices.map (fun q => ("card-" ++ q.id, a q.id)) ∧
      checkStatus w1.page = checkStatus { w.page with elems := checkedPage a } ∧
      cardStatus w1.page = cardStatus { w.page with elems := checkedPage a } ∧
      (renderBestPractices
        (saveState { w with page := { w.page with elems := checkedPage a } })).page.elems
        = checkedPage (fun _ => false) := by
  have hst := plainState_bestPractices a
  have hstore : (renderBestPractices
      (saveState { w with page := { w.page with elems := checkedPage a } })).storage
      = some (JSON.stringify (bestPractices.map (fun p => (p.id, a p.id)))) := by
    show some (JSON.stringify _) = _
    rw [savedEntries_checkedPage a]
  have hnonempty : (JSON.stringify (bestPractices.map (fun p => (p.id, a p.id)))).data.isEmpty
      = false := rfl
  have happly := applySaved_checkedPage a
    (renderBestPractices
      (saveState { w with page := { w.page with elems := checkedPage a } })).page rfl
  have hload : loadSavedState (renderBestPractices
        (saveState { w with page := { w.page with elems := checkedPage a } }))
      = .ok { renderBestPractices
          (saveState { w with page := { w.page with elems := checkedPage a } }) with
          page := { (renderBestPractices
            (saveState { w with page := { w.page with elems := checkedPage a } })).page with
            elems := checkedPage a },
          timers := w.timers ++ [(100, Callback.updateProgress)] } := by
    unfold loadSavedState
    simp only [hstore, hnonempty, parse_stringify _ hst, forInEntries_stored _ hst, happly]
    rfl
  refine ⟨_, hload, rfl, ?_, ?_, ?_, ?_, ?_⟩
  · exact checkStatus_checkedPage a _ rfl
  · exact cardStatus_checkedPage a _ rfl
  · rw [checkStatus_checkedPage a _ rfl, checkStatus_checkedPage a _ rfl]
  · rw [cardStatus_checkedPage a _ rfl, cardStatus_checkedPage a _ rfl]
  · exact checkedPage_none.symm

theorem forceUpdateProgress_zero (w : World) (h : checkedCount w.page = 0) :
    forceUpdateProgress w = w := by
  unfold forceUpdateProgress
  simp only [h, gt_iff_lt, Nat.lt_irrefl, if_false]

theorem forceUpdateProgress_requests (w : World) :
    (forceUpdateProgress w).requests = w.requests := by
  simp only [forceUpdateProgress, updateCircularProgress]
  split_ifs <;> rfl

theorem forceUpdateProgress_elems (w : World) :
    (forceUpdateProgress w).page.elems = w.page.elems := by
  simp only [forceUpdateProgress, updateCircularProgress]
  split_ifs <;> rfl

theorem forceUpdateProgress_animal (w : World) :
    (forceUpdateProgress w).page.animal = w.page.animal := by
  simp only [forceUpdateProgress, updateCircularProgress]
  split_ifs <;> rfl

theorem forceUpdateProgress_successHidden (w : World) :
    (forceUpdateProgress w).page.successHidden =
      (w.page.successHidden && decide (checkedCount w.page < REQUIRED_FOR_SUCCESS)) := by
  simp only [forceUpdateProgress, updateCircularProgress, REQUIRED_FOR_SUCCESS]
  split_ifs <;> simp_all

theorem forceUpdateProgress_successState (w : World) :
    (forceUpdateProgress w).page.successState =
      (w.page.successState || decide (REQUIRED_FOR_SUCCESS ≤ checkedCount w.page)) := by
  simp only [forceUpdateProgress, updateCircularProgress, REQUIRED_FOR_SUCCESS]
  split_ifs <;> simp_all

/-- C13: `forceUpdateProgress` never issues a reward request, never hides the
success banner and never unmarks the gauge (nor touches the reward container);
with 12 or more boxes checked and the banner hidden it shows the banner and
marks the gauge without a request, and the `updateProgress` that follows finds
the banner shown and issues no request either; with no box checked it changes
nothing at all. -/
theorem forceUpdateProgress_no_fetch (w : World) :
    (forceUpdateProgress w).requests = w.requests ∧
    (forceUpdateProgress w).page.animal = w.page.animal ∧
    (w.page.successHidden = false → (forceUpdateProgress w).page.successHidden = false) ∧
    (w.page.successState = true → (forceUpdateProgress w).page.successState = true) ∧
    (REQUIRED_FOR_SUCCESS ≤ checkedCount w.page → w.page.successHidden = true →
      (forceUpdateProgress w).page.successHidden = false ∧
      (forceUpdateProgress w).page.successState = true ∧
      (forceUpdateProgress w).requests = w.requests ∧
      (updateProgress (forceUpdateProgress w)).requests = w.requests ∧
      (updateProgress (forceUpdateProgress w)).page.successHidden = false) ∧
    (checkedCount w.page = 0 → forceUpdateProgress w = w) := by
  refine ⟨forceUpdateProgress_requests w, forceUpdateProgress_animal w, ?_, ?_, ?_,
    forceUpdateProgress_zero w⟩
  · intro h
    rw [forceUpdateProgress_successHidden, h]
    rfl
  · intro h
    rw [forceUpdateProgress_successState, h]
    rfl
  · intro h12 hh
    have hnot : ¬ checkedCount w.page < REQUIRED_FOR_SUCCESS := Nat.not_lt.mpr h12
    have h1 : (forceUpdateProgress w).page.successHidden = false := by
      rw [forceUpdateProgress_successHidden]
      simp [hnot]
    have hc : checkedCount (forceUpdateProgress w).page = checkedCount w.page := by
      simp only [checkedCount, forceUpdateProgress_elems]
    refine ⟨h1, ?_, forceUpdateProgress_requests w, ?_, ?_⟩
    · rw [forceUpdateProgress_successState]
      simp [h12]
    · rw [updateProgress_requests, h1, forceUpdateProgress_requests]
      simp
    · rw [updateProgress_successHidden, hc]
      simp [hnot]

/-- Witness for C13: twelve boxes checked on the rendered page, banner hidden
(the state a page restored from the cache can be in). -/
theorem forceUpdateProgress_no_fetch_witness :
    (forceUpdateProgress (withChecked [1, 3, 5, 7, 9, 11, 13, 15, 17, 19, 21, 23]
      (renderBestPractices (initialWorld none)))).page.successHidden = false ∧
    (updateProgress (forceUpdateProgress (withChecked [1, 3, 5, 7, 9, 11, 13, 15, 17, 19, 21, 23]
      (renderBestPractices (initialWorld none))))).requests = 0 :=
  ⟨((forceUpdateProgress_no_fetch _).2.2.2.2.1 (by decide) rfl).1,
   ((forceUpdateProgress_no_fetch (withChecked [1, 3, 5, 7, 9, 11, 13, 15, 17, 19, 21, 23]
      (renderBestPractices (initialWorld none)))).2.2.2.2.1 (by decide) rfl).2.2.2.1⟩

theorem applySaved_fields (entries : List (String × Bool)) (p q : Page)
    (h : applySaved entries p = some q) : q = { p with elems := q.elems } := by
  induction entries generalizing p with
  | nil =>
      simp only [applySaved, Option.some.injEq] at h
      rw [← h]
  | cons kv rest ih =>
      obtain ⟨k, v⟩ := kv
      simp only [applySaved] at h
      cases h1 : jq ("#" ++ k) with
      | none => simp [h1] at h
      | some checkbox =>
          simp only [h1] at h
          cases v with
          | false =>
              simp only [Bool.false_eq_true, if_false] at h
              have := ih _ h
              exact this
          | true =>
              simp only [if_true] at h
              cases h2 : jq ("#card-" ++ k) with
              | none => simp [h2] at h
              | some card =>
                  simp only [h2] at h
                  have := ih _ h
                  exact this

theorem loadSavedState_ok {w w3 : World} (h : loadSavedState w = .ok w3) :
    w3 = { w with
           page := { w.page with elems := w3.page.elems },
           timers := w.timers ++ [(100, Callback.updateProgress)] } ∧
    w3.page.elems.map (fun e => (e.id, e.kind)) = w.page.elems.map (fun e => (e.id, e.kind)) := by
  unfold loadSavedState at h
  simp only [] at h
  split at h
  · injection h with h
    subst h
    exact ⟨rfl, rfl⟩
  · split at h
    · injection h with h
      subst h
      exact ⟨rfl, rfl⟩
    · split at h
      · exact Outcome.noConfusion h
      · exact Outcome.noConfusion h
      · split at h
        · exact Outcome.noConfusion h
        · next state hp p hap =>
            injection h with h
            subst h
            refine ⟨?_, applySaved_shape _ _ _ hap⟩
            have := applySaved_fields _ _ _ hap
            simp only []
            rw [← this]

theorem updateProgress_hasCircle (w : World) :
    (updateProgress w).page.hasCircle = w.page.hasCircle := by
  simp only [updateProgress, showSuccessMessage, hideSuccessMessage, fetchRandomDogImage,
    updateCircularProgress]
  split_ifs <;> rfl

theorem updateProgress_hasLabel (w : World) :
    (updateProgress w).page.hasLabel = w.page.hasLabel := by
  simp only [updateProgress, showSuccessMessage, hideSuccessMessage, fetchRandomDogImage,
    updateCircularProgress]
  split_ifs <;> rfl

theorem updateProgress_timers (w : World) : (updateProgress w).timers = w.timers := by
  simp only [updateProgress, showSuccessMessage, hideSuccessMessage, fetchRandomDogImage,
    updateCircularProgress]
  split_ifs <;> rfl

theorem documentReady_ok {w w1 : World} (h : documentReady w = .ok w1) :
    ∃ w3, loadSavedState (renderBestPractices
        { w with page := { w.page with totalPractices := some TOTAL_PRACTICES } }) = .ok w3 ∧
      w1 = { updateProgress w3 with
             page := updateCircularProgress 0 (updateProgress w3).page,
             timers := (updateProgress w3).timers ++ [(500, Callback.forceUpdateProgress)] } := by
  unfold documentReady at h
  simp only [] at h
  split at h
  · next w3 h3 =>
      injection h with h
      exact ⟨w3, h3, h.symm⟩
  · exact Outcome.noConfusion h
  · exact Outcome.noConfusion h

theorem checkedCount_le_of_shape (p : Page) (h : RenderShaped p) :
    checkedCount p ≤ TOTAL_PRACTICES := by
  have h1 : checkedCount p ≤ (p.elems.filter (fun e => e.kind = .check)).length := by
    unfold checkedCount
    apply List.Sublist.length_le
    apply List.monotone_filter_right
    intro e he
    simp only [Bool.and_eq_true, decide_eq_true_eq] at he ⊢
    exact he.1
  have h2 : (p.elems.filter (fun e => e.kind = .check)).length
      = ((p.elems.map (fun e => (e.id, e.kind))).filter (fun x => x.2 = .check)).length := by
    rw [List.filter_map, List.length_map]
    rfl
  rw [h2, h] at h1
  exact h1

theorem percentageOf_pos (c : Nat) (h0 : 0 < c) (h : c ≤ TOTAL_PRACTICES) :
    0 < percentageOf c := by
  rw [total_practices_eq] at h
  rw [(percentageOf_table c h).1]
  omega

theorem updateProgress_page_timers (w : World) (t : List (Nat × Callback)) :
    (updateProgress { w with timers := t }).page = (updateProgress w).page := by
  simp only [updateProgress, showSuccessMessage, hideSuccessMessage, fetchRandomDogImage,
    updateCircularProgress]
  split_ifs <;> rfl

theorem fireFirst_ready (w : World)
    (ht : w.timers = [(100, Callback.updateProgress), (500, Callback.forceUpdateProgress)]) :
    fireFirst w = updateProgress { w with timers := [(500, Callback.forceUpdateProgress)] } := by
  unfold fireFirst
  rw [ht]
  rfl

theorem renderShaped_render (w : World) : RenderShaped (renderBestPractices w).page := rfl

/-- C14: when the synchronous document-ready sequence (render,
`loadSavedState`, `updateProgress`, `updateCircularProgress(0)`) has run to
its end, the gauge and its label show 0 whatever was stored, while the counter
shows the number of boxes the stored state checked; the two timers
(100 ms `updateProgress`, 500 ms `forceUpdateProgress`) are pending, and the
gauge shows the rounded percentage of that count only once `updateProgress`
has run again, which is what the first timer to fire does. -/
theorem documentReady_gauge_zero (w w1 : World) (h : documentReady w = .ok w1) :
    w1.page.completedPractices = some (checkedCount w1.page) ∧
    (w.page.hasCircle = true → w1.page.gauge = some 0) ∧
    (w.page.hasCircle = true → w.page.hasLabel = true → w1.page.label = some 0) ∧
    w1.timers = w.timers ++ [(100, Callback.updateProgress), (500, Callback.forceUpdateProgress)] ∧
    checkedCount w1.page ≤ TOTAL_PRACTICES ∧
    (0 < checkedCount w1.page → w.page.hasCircle = true →
      w1.page.gauge ≠ some (percentageOf (checkedCount w1.page))) ∧
    (w.page.hasCircle = true →
      (updateProgress w1).page.gauge = some (percentageOf (checkedCount w1.page))) ∧
    (w.page.hasCircle = true → w.page.hasLabel = true →
      (updateProgress w1).page.label = some (percentageOf (checkedCount w1.page))) ∧
    (w.timers = [] →
      (fireFirst w1).page = (updateProgress w1).page ∧
      (fireFirst w1).timers = [(500, Callback.forceUpdateProgress)]) := by
  obtain ⟨w3, h3, rfl⟩ := documentReady_ok h
  obtain ⟨h3eq, h3shape⟩ := loadSavedState_ok h3
  have hcircle3 : w3.page.hasCircle = w.page.hasCircle := by rw [h3eq]; rfl
  have hlabel3 : w3.page.hasLabel = w.page.hasLabel := by rw [h3eq]; rfl
  have htimers3 : w3.timers = w.timers ++ [(100, Callback.updateProgress)] := by rw [h3eq]; rfl
  have helems : ∀ n, (updateCircularProgress n (updateProgress w3).page).elems
      = w3.page.elems := by
    intro n
    simp only [updateCircularProgress]
    split_ifs <;> exact updateProgress_elems w3
  have hcount : checkedCount (updateCircularProgress 0 (updateProgress w3).page)
      = checkedCount w3.page := by
    simp only [checkedCount, helems]
  have hcirc : (updateCircularProgress 0 (updateProgress w3).page).hasCircle
      = w.page.hasCircle := by
    simp only [updateCircularProgress]
    split_ifs <;> rw [updateProgress_hasCircle, hcircle3]
  have hlab : (updateCircularProgress 0 (updateProgress w3).page).hasLabel
      = w.page.hasLabel := by
    simp only [updateCircularProgress]
    split_ifs <;> rw [updateProgress_hasLabel, hlabel3]
  have hshape : RenderShaped (updateCircularProgress 0 (updateProgress w3).page) := by
    unfold RenderShaped
    rw [helems, h3shape]
    rfl
  have hle := checkedCount_le_of_shape _ hshape
  have hgauge : w.page.hasCircle = true →
      (updateCircularProgress 0 (updateProgress w3).page).gauge = some 0 := by
    intro hc
    simp only [updateCircularProgress, updateProgress_hasCircle, hcircle3, hc, if_true]
    split_ifs <;> rfl
  refine ⟨?_, hgauge, ?_, ?_, hle, ?_, ?_, ?_, ?_⟩
  · show (updateCircularProgress 0 (updateProgress w3).page).completedPractices = _
    rw [hcount]
    simp only [updateCircularProgress]
    split_ifs <;> exact updateProgress_completed w3
  · intro hc hl
    show (updateCircularProgress 0 (updateProgress w3).page).label = some 0
    simp only [updateCircularProgress, updateProgress_hasCircle, updateProgress_hasLabel,
      hcircle3, hlabel3, hc, hl, if_true]
  · show (updateProgress w3).timers ++ [(500, Callback.forceUpdateProgress)] = _
    rw [updateProgress_timers, htimers3, List.append_assoc]
    rfl
  · intro hpos hc
    show (updateCircularProgress 0 (updateProgress w3).page).gauge ≠ _
    rw [hgauge hc]
    intro heq
    injection heq with heq
    have := percentageOf_pos _ hpos hle
    omega
  · intro hc
    rw [updateProgress_gauge]
    show (if (updateCircularProgress 0 (updateProgress w3).page).hasCircle = true then _ else _)
      = _
    rw [hcirc, hc]
    rfl
  · intro hc hl
    rw [updateProgress_label]
    show (if ((updateCircularProgress 0 (updateProgress w3).page).hasCircle
      && (updateCircularProgress 0 (updateProgress w3).page).hasLabel) = true then _ else _) = _
    rw [hcirc, hlab, hc, hl]
    rfl
  · intro ht
    have htl : (updateProgress w3).timers ++ [(500, Callback.forceUpdateProgress)]
        = [(100, Callback.updateProgress), (500, Callback.forceUpdateProgress)] := by
      rw [updateProgress_timers, htimers3, ht]
      rfl
    rw [fireFirst_ready _ htl]
    exact ⟨updateProgress_page_timers _ _, updateProgress_timers _⟩

/-- Witness for C14: the page opens with four items stored as checked. -/
theorem documentReady_gauge_zero_witness :
    ∃ w1, documentReady (initialWorld (some
        "\x7b\"semantic-html\":true,\"accessibility\":true,\"defer-js\":true,\"https\":true,\"css-prefixes\":false\x7d"))
        = .ok w1 ∧
      w1.page.completedPractices = some 4 ∧ w1.page.gauge = some 0 ∧ w1.page.label = some 0 ∧
      (updateProgress w1).page.label = some 27 := by
  refine ⟨_, rfl, ?_⟩
  have h := documentReady_gauge_zero (initialWorld (some
    "\x7b\"semantic-html\":true,\"accessibility\":true,\"defer-js\":true,\"https\":true,\"css-prefixes\":false\x7d"))
    _ rfl
  exact ⟨h.1.trans (by decide), h.2.1 rfl, h.2.2.1 rfl rfl,
    (h.2.2.2.2.2.2.2.1 rfl rfl).trans (by decide)⟩

/-- C11: `renderBestPractices` emits exactly one checkbox per catalog item, 15
in all, with pairwise distinct ids that are the item ids, each in the
container of the item's category; and in every container the cards (and their
checkboxes) are those of the catalog items of that category, in the relative
order of the catalog.  The result does not depend on what the containers held
before. -/
theorem renderBestPractices_one_checkbox_per_item (w : World) :
    (∀ p ∈ bestPractices,
      ((renderBestPractices w).page.elems.filter
        (fun e => e.kind = .check ∧ e.id = p.id)).length = 1 ∧
      ((renderBestPractices w).page.elems.filter
        (fun e => e.kind = .check ∧ e.id = p.id ∧ e.container = p.category)).length = 1) ∧
    ((renderBestPractices w).page.elems.filter (fun e => e.kind = .check)).length = 15 ∧
    (((renderBestPractices w).page.elems.filter (fun e => e.kind = .check)).map
      (fun e => e.id)).Nodup ∧
    (∀ e ∈ (renderBestPractices w).page.elems, e.kind = .check →
      ∃ p ∈ bestPractices, e.id = p.id ∧ e.container = p.category) ∧
    (∀ c : Category,
      ((renderBestPractices w).page.elems.filter
        (fun e => e.kind = .card ∧ e.container = c)).map (fun e => e.id)
        = (bestPractices.filter (fun p => p.category = c)).map (fun p => "card-" ++ p.id) ∧
      ((renderBestPractices w).page.elems.filter
        (fun e => e.kind = .check ∧ e.container = c)).map (fun e => e.id)
        = (bestPractices.filter (fun p => p.category = c)).map (fun p => p.id) ∧
      List.Sublist
        (((renderBestPractices w).page.elems.filter
          (fun e => e.kind = .card ∧ e.container = c)).map (fun e => e.id))
        (bestPractices.map (fun p => "card-" ++ p.id))) ∧
    (renderBestPractices w).page.elems = (renderBestPractices (initialWorld none)).page.elems := by
  rw [renderBestPractices_elems w]
  refine ⟨by decide, by decide, by decide, by decide, ?_, rfl⟩
  intro c
  have hcards : ((renderBestPractices (initialWorld none)).page.elems.filter
        (fun e => e.kind = .card ∧ e.container = c)).map (fun e => e.id)
        = (bestPractices.filter (fun p => p.category = c)).map (fun p => "card-" ++ p.id) := by
    cases c <;> decide
  refine ⟨hcards, by cases c <;> decide, ?_⟩
  rw [hcards]
  exact List.Sublist.map _ (List.filter_sublist _)

theorem checkIds_of_shape (p : Page) (h : RenderShaped p) :
    (p.elems.filter (fun e => e.kind = .check)).map (fun e => e.id)
      = bestPractices.map (fun q => q.id) := by
  have h2 : (p.elems.filter (fun e => e.kind = .check)).map (fun e => e.id)
      = ((p.elems.map (fun e => (e.id, e.kind))).filter (fun x => x.2 = .check)).map
          (fun x => x.1) := by
    rw [List.filter_map, List.map_map]
    rfl
  rw [h2, h]
  decide

theorem foldl_assign (l : List Elem) (acc : List (String × Bool))
    (hnd : (acc.map (fun m => m.1) ++ l.map (fun e => e.id)).Nodup)
    (hproto : ∀ e ∈ l, e.id ≠ "__proto__") :
    l.foldl (fun state e => assign state e.id e.checked) acc
      = acc ++ l.map (fun e => (e.id, e.checked)) := by
  have h1 : l.foldl (fun state e => assign state e.id e.checked) acc
      = (l.map (fun e => (e.id, e.checked))).foldl (fun o m => setProp o m.1 m.2) acc := by
    rw [List.foldl_map]
    clear hnd
    induction l generalizing acc with
    | nil => rfl
    | cons e es ih =>
        simp only [List.foldl_cons, assign, if_neg (hproto e (List.mem_cons_self _ _))]
        exact ih _ (fun d hd => hproto d (List.mem_cons_of_mem _ hd))
  rw [h1]
  apply foldl_setProp_fresh
  simpa only [List.map_map, Function.comp] using hnd

theorem plainState_of_keys (st : List (String × Bool))
    (h : st.map (fun m => m.1) = bestPractices.map (fun q => q.id)) : PlainState st := by
  have hmem : ∀ m ∈ st, ∃ q ∈ bestPractices, q.id = m.1 := by
    intro m hm
    have : m.1 ∈ st.map (fun m => m.1) := List.mem_map.mpr ⟨m, hm, rfl⟩
    rw [h] at this
    obtain ⟨q, hq, hqe⟩ := List.mem_map.mp this
    exact ⟨q, hq, hqe⟩
  refine ⟨?_, ?_, ?_⟩
  · rw [h]
    exact goodIds_bestPractices.1
  · intro m hm
    obtain ⟨q, hq, hqe⟩ := hmem m hm
    have : ∀ q ∈ bestPractices, arrayIndex q.id = none := by decide
    rw [← hqe]
    exact this q hq
  · intro m hm
    obtain ⟨q, hq, hqe⟩ := hmem m hm
    rw [← hqe]
    exact plainChars_of_idChars _ (goodIds_bestPractices.2.2 q hq).2

theorem trueEntries_eq_checkedCount (p : Page) :
    ((checkStatus p).filter (fun m => m.2)).length = checkedCount p := by
  unfold checkStatus checkedCount
  induction p.elems with
  | nil => rfl
  | cons e es ih =>
      rcases e with ⟨id, kind, c, ch, m⟩
      cases kind <;> cases ch <;> simp [List.filter_cons] at ih ⊢ <;> exact ih

/-- C12: on every state of the rendered page, the object `saveState` writes
(the value `JSON.parse` reads back from the stored text) has exactly the ids
of the checkboxes of the page as its keys, which are the ids of the catalog
items, each once, and maps every id to the boolean `checked` status of its
checkbox; hence its number of `true` entries is the checked count that
`updateProgress` computes and displays for the same page. -/
theorem saveState_object (w : World) (hshape : RenderShaped w.page) :
    ∃ raw,
      (saveState w).storage = some raw ∧
      JSON.parse raw
        = .ok (.obj (JMembers.ofList ((checkStatus w.page).map (fun m => (m.1, JVal.bool m.2))))) ∧
      (checkStatus w.page).map (fun m => m.1)
        = (w.page.elems.filter (fun e => e.kind = .check)).map (fun e => e.id) ∧
      (checkStatus w.page).map (fun m => m.1) = bestPractices.map (fun q => q.id) ∧
      ((checkStatus w.page).map (fun m => m.1)).Nodup ∧
      (∀ e ∈ w.page.elems, e.kind = .check → (e.id, e.checked) ∈ checkStatus w.page) ∧
      ((checkStatus w.page).filter (fun m => m.2)).length = checkedCount w.page ∧
      (updateProgress w).page.completedPractices
        = some ((checkStatus w.page).filter (fun m => m.2)).length ∧
      (saveState w).page = w.page := by
  have hids := checkIds_of_shape w.page hshape
  have hkeys : (checkStatus w.page).map (fun m => m.1) = bestPractices.map (fun q => q.id) := by
    rw [← hids]
    unfold checkStatus
    rw [List.map_map]
    rfl
  have hplain := plainState_of_keys _ hkeys
  have hfold : (w.page.elems.filter (fun e => e.kind = .check)).foldl
      (fun state e => assign state e.id e.checked) [] = checkStatus w.page := by
    rw [foldl_assign _ [] (by rw [List.map_nil, List.nil_append, hids]; exact goodIds_bestPractices.1)]
    · rfl
    · intro e he
      have : e.id ∈ (w.page.elems.filter (fun e => e.kind = .check)).map (fun e => e.id) :=
        List.mem_map.mpr ⟨e, he, rfl⟩
      rw [hids] at this
      intro heq
      rw [heq] at this
      exact absurd this (by decide)
  refine ⟨JSON.stringify (checkStatus w.page), ?_, parse_stringify _ hplain, ?_, hkeys, ?_, ?_,
    trueEntries_eq_checkedCount w.page, ?_, rfl⟩
  · show some (JSON.stringify _) = _
    rw [hfold]
  · unfold checkStatus
    rw [List.map_map]
    rfl
  · rw [hkeys]
    exact goodIds_bestPractices.1
  · intro e he hk
    unfold checkStatus
    exact List.mem_map.mpr ⟨e, List.mem_filter.mpr ⟨he, by simp [hk]⟩, rfl⟩
  · rw [updateProgress_completed, trueEntries_eq_checkedCount]

theorem map_set_same {α β : Type} (f : α → β) (l : List α) (i : Nat) (a b : α)
    (h : l.get? i = some a) (hf : f b = f a) : (l.set i b).map f = l.map f := by
  induction l generalizing i with
  | nil => rfl
  | cons x xs ih =>
      cases i with
      | zero =>
          simp only [List.get?_cons_zero, Option.some.injEq] at h
          simp only [List.set_cons_zero, List.map_cons, hf, h]
      | succ n =>
          simp only [List.get?_cons_succ] at h
          simp only [List.set_cons_succ, List.map_cons, ih n h]

theorem toggle_shape {i : Nat} {w w1 : World} (h : (toggle i w).state? = some w1) :
    w1.page.elems.map (fun e => (e.id, e.kind)) = w.page.elems.map (fun e => (e.id, e.kind)) := by
  unfold toggle at h
  split at h
  · next e he =>
      split at h
      · unfold changeHandler at h
        simp only [] at h
        split at h
        · exact absurd h (by simp [Outcome.state?])
        · next card hcard =>
            simp only [Outcome.state?, Option.some.injEq] at h
            rw [← h, updateProgress_elems]
            show (card.update _ _).map _ = _
            exact (Selection.update_shape card
              (fun e1 => { e1 with marked := !e.checked }) (fun _ => ⟨rfl, rfl⟩) _).trans
              (map_set_same _ _ _ _ _ he rfl)
      · simp only [Outcome.state?, Option.some.injEq] at h
        rw [h]
  · simp only [Outcome.state?, Option.some.injEq] at h
    rw [h]

theorem loadSavedState_shape {w w3 : World} (h : (loadSavedState w).state? = some w3) :
    w3.page.elems.map (fun e => (e.id, e.kind)) = w.page.elems.map (fun e => (e.id, e.kind)) := by
  cases hl : loadSavedState w with
  | ok s =>
      rw [hl] at h
      simp only [Outcome.state?, Option.some.injEq] at h
      rw [← h]
      exact (loadSavedState_ok hl).2
  | threw e s =>
      rw [hl] at h
      simp only [Outcome.state?, Option.some.injEq] at h
      subst h
      unfold loadSavedState at hl
      simp only [] at hl
      split at hl
      · exact Outcome.noConfusion hl
      · split at hl
        · exact Outcome.noConfusion hl
        · split at hl
          · injection hl with _ hs
            rw [← hs]
          · exact Outcome.noConfusion hl
          · split at hl <;> exact Outcome.noConfusion hl
  | unmodelled =>
      rw [hl] at h
      exact absurd h (by simp [Outcome.state?])

theorem documentReady_shape {w w1 : World} (h : (documentReady w).state? = some w1) :
    RenderShaped w1.page := by
  unfold documentReady at h
  simp only [] at h
  split at h
  · next w3 h3 =>
      simp only [Outcome.state?, Option.some.injEq] at h
      have hs := @loadSavedState_shape _ w3 (by rw [h3]; rfl)
      unfold RenderShaped
      rw [← h]
      have helems : (updateCircularProgress 0 (updateProgress w3).page).elems = w3.page.elems := by
        simp only [updateCircularProgress]
        split_ifs <;> exact updateProgress_elems w3
      show (updateCircularProgress 0 (updateProgress w3).page).elems.map _ = _
      rw [helems, hs]
      rfl
  · next e w3 h3 =>
      simp only [Outcome.state?, Option.some.injEq] at h
      have hs := @loadSavedState_shape _ w3 (by rw [h3]; rfl)
      unfold RenderShaped
      rw [← h, hs]
      rfl
  · exact absurd h (by simp [Outcome.state?])

theorem ajaxComplete_elems {r : FetchResult} {w w1 : World}
    (h : (ajaxComplete r w).state? = some w1) : w1.page.elems = w.page.elems := by
  cases r with
  | json response =>
      simp only [ajaxComplete, ajaxSuccess] at h
      split at h
      · simp only [Outcome.state?, Option.some.injEq] at h; rw [h]
      · simp only [Outcome.state?, Option.some.injEq] at h; rw [h]
      · split at h <;> (simp only [Outcome.state?, Option.some.injEq] at h; rw [← h])
  | timeout => simp only [ajaxComplete, ajaxError, Outcome.state?, Option.some.injEq] at h; rw [← h]
  | networkError =>
      simp only [ajaxComplete, ajaxError, Outcome.state?, Option.some.injEq] at h; rw [← h]
  | httpError s =>
      simp only [ajaxComplete, ajaxError, Outcome.state?, Option.some.injEq] at h; rw [← h]
  | parserError =>
      simp only [ajaxComplete, ajaxError, Outcome.state?, Option.some.injEq] at h; rw [← h]

theorem renderShaped_of_reachable {w : World} (h : Reachable w) : RenderShaped w.page := by
  induction h with
  | ready hr => exact documentReady_shape hr
  | click i _ ht ih =>
      unfold RenderShaped at ih ⊢
      rw [toggle_shape ht, ih]
  | reset _ ih =>
      unfold RenderShaped at ih ⊢
      rw [resetProgress_page_elems, ← ih, List.map_map, List.map_map]
      apply List.map_congr_left
      intro e _
      simp only [Function.comp]
      split <;> split <;> rfl
  | timer cb _ ih =>
      unfold RenderShaped at ih ⊢
      cases cb with
      | updateProgress => rw [← ih]; exact congrArg _ (updateProgress_elems _)
      | forceUpdateProgress => rw [← ih]; exact congrArg _ (forceUpdateProgress_elems _)
  | response r _ hr ih =>
      unfold RenderShaped at ih ⊢
      rw [ajaxComplete_elems hr, ih]
  | retry _ ih =>
      unfold RenderShaped at ih ⊢
      rw [← ih]
      unfold clickRetry
      split <;> rfl
  | newDog _ ih =>
      unfold RenderShaped at ih ⊢
      rw [← ih]
      unfold clickNewDog
      split <;> rfl

theorem reachable_clicks (is : List Nat) {w w1 : World} (hw : Reachable w)
    (h : clicks is w = .ok w1) : Reachable w1 := by
  induction is generalizing w with
  | nil =>
      simp only [clicks] at h
      injection h with h
      exact h ▸ hw
  | cons i rest ih =>
      simp only [clicks] at h
      split at h
      · next w2 h2 => exact ih (Reachable.click i hw (by rw [h2]; rfl)) h
      · exact Outcome.noConfusion h
      · exact Outcome.noConfusion h

/-- Witness for C12: the page opened with nothing stored, after clicks on the
first and the last checkbox. -/
theorem saveState_object_witness :
    ∃ w0 w1, documentReady (initialWorld none) = .ok w0 ∧ clicks [1, 29] w0 = .ok w1 ∧
      checkedCount w1.page = 2 ∧
      ∃ raw, (saveState w1).storage = some raw ∧
        JSON.parse raw = .ok (.obj (JMembers.ofList
          ((checkStatus w1.page).map (fun m => (m.1, JVal.bool m.2))))) := by
  refine ⟨_, _, rfl, rfl, by decide, ?_⟩
  obtain ⟨raw, h1, h2, -⟩ := saveState_object _
    (renderShaped_of_reachable
      (reachable_clicks [1, 29] (Reachable.ready (w := initialWorld none) rfl) rfl))
  exact ⟨raw, h1, h2⟩

end BestPractices
